import Mathlib

/-!
Verification development for the node-banana workflow editor core.

The first part embeds the workflow store (graph store, history manager,
change-batch adapter and duplication/placement engine).  The store's
implementation file is not part of the sources; only its vitest suite is
(`src/unnamed/part_000`), so the store is modelled from the specification
(spec.md §3, §4), with the test suite pinning behaviour where it is the
only code-level authority.  The second part embeds the easing-preset
table (`src/lib/easing-presets.ts`) and the cubic-bezier editor's
pointer-to-handle computation (`src/components/CubicBezierEditor.tsx`).
-/

/-- Modelled from the spec: a 2-d position `{x, y}` (§3, Node/NodeGroup). -/
structure Pos where
  x : Int
  y : Int
deriving DecidableEq

/-- Modelled from the spec: a group's bounding-rectangle size (§3, NodeGroup). -/
structure Size where
  width : Int
  height : Int
deriving DecidableEq

/-- Modelled from the spec (§3, Node): a workflow node.  Ids are modelled as
naturals drawn from a never-reused counter (the spec's generated unique
string ids); `data` is the type-tagged payload, modelled as a key/value
association list so that `updateNodeData`'s shallow merge is expressible. -/
structure Node where
  id : Nat
  type : String
  position : Pos
  data : List (String × String)
  selected : Bool
  groupId : Option Nat
deriving DecidableEq

/-- Modelled from the spec (§3, Edge): a directed connection between node
ports, identified by its own id. -/
structure Edge where
  id : Nat
  source : Nat
  sourceHandle : String
  target : Nat
  targetHandle : String
deriving DecidableEq

/-- Modelled from the spec (§3, NodeGroup): a named, positioned and sized
container; membership is recorded on the nodes via `groupId`. -/
structure NodeGroup where
  name : String
  position : Pos
  size : Size
deriving DecidableEq

/-- Modelled from the spec (§3, HistorySnapshot): an immutable capture of
nodes/edges/groups at one instant. -/
structure Snapshot where
  nodes : List Node
  edges : List Edge
  groups : List (Nat × NodeGroup)
deriving DecidableEq

/-- Modelled from the spec (§3, WorkflowState): current graph content plus
selection context, the two history stacks (most-recent at the tail) and
the id-generation counter. -/
structure WorkflowState where
  nodes : List Node
  edges : List Edge
  groups : List (Nat × NodeGroup)
  selectedGroupId : Option Nat
  undoHistory : List Snapshot
  redoHistory : List Snapshot
  nextId : Nat
deriving DecidableEq

/-- Modelled from the spec: the observable graph content of a state. -/
def obsOf (s : WorkflowState) : Snapshot :=
  ⟨s.nodes, s.edges, s.groups⟩

/-- Modelled from the spec (§4.2): capture the current content onto the undo
stack and clear the redo stack. -/
def pushHistorySnapshot (s : WorkflowState) : WorkflowState :=
  { s with undoHistory := s.undoHistory ++ [obsOf s], redoHistory := [] }

/-- Modelled from the spec (§3): `canUndo` is true iff the undo stack is
non-empty. -/
def canUndo (s : WorkflowState) : Bool :=
  !s.undoHistory.isEmpty

/-- Modelled from the spec (§3): `canRedo` is true iff the redo stack is
non-empty. -/
def canRedo (s : WorkflowState) : Bool :=
  !s.redoHistory.isEmpty

/-- Modelled from the spec (§4.2, undo): no-op on an empty stack, otherwise
capture the current content onto redo, pop the undo tail and restore it. -/
def undo (s : WorkflowState) : WorkflowState :=
  match s.undoHistory.getLast? with
  | none => s
  | some sn =>
    { s with nodes := sn.nodes, edges := sn.edges, groups := sn.groups,
             undoHistory := s.undoHistory.dropLast,
             redoHistory := s.redoHistory ++ [obsOf s] }

/-- Modelled from the spec (§4.2, redo): symmetric to `undo`. -/
def redo (s : WorkflowState) : WorkflowState :=
  match s.redoHistory.getLast? with
  | none => s
  | some sn =>
    { s with nodes := sn.nodes, edges := sn.edges, groups := sn.groups,
             redoHistory := s.redoHistory.dropLast,
             undoHistory := s.undoHistory ++ [obsOf s] }

/-- Modelled from the spec (§4.2): empty both stacks, leave content alone. -/
def clearUndoRedoHistory (s : WorkflowState) : WorkflowState :=
  { s with undoHistory := [], redoHistory := [] }

/-- Modelled from the spec (§4.1): empty nodes/edges/groups and clear the
selected group; history stacks are not touched. -/
def clearWorkflow (s : WorkflowState) : WorkflowState :=
  { s with nodes := [], edges := [], groups := [], selectedGroupId := none }

/-- Modelled from the spec (§4.1): pure selection-context update, never
history-recorded. -/
def setSelectedGroupId (v : Option Nat) (s : WorkflowState) : WorkflowState :=
  { s with selectedGroupId := v }

/-- Modelled from the spec (§4.1, addNode): the default data payload for a
node type; the spec does not fix its contents, so it is the empty payload. -/
def defaultDataFor (_ty : String) : List (String × String) :=
  []

/-- Modelled from the spec (§4.1, addNode): allocate an id, insert an
unselected node with default data; always history-recorded. -/
def addNode (ty : String) (p : Pos) (s : WorkflowState) : Nat × WorkflowState :=
  let s1 := pushHistorySnapshot s
  (s.nextId,
   { s1 with nodes := s1.nodes ++ [⟨s.nextId, ty, p, defaultDataFor ty, false, none⟩],
             nextId := s.nextId + 1 })

/-- Modelled from the spec (§4.1, removeNode): remove the node and every
edge whose source or target equals its id; a no-op when the id is absent. -/
def removeNode (id : Nat) (s : WorkflowState) : WorkflowState :=
  if s.nodes.any (fun n => n.id == id) then
    let s1 := pushHistorySnapshot s
    { s1 with nodes := s1.nodes.filter (fun n => n.id != id),
              edges := s1.edges.filter (fun e => e.source != id && e.target != id) }
  else s

/-- Modelled from the spec (§4.1, updateNodeData): shallow merge of a
partial payload into a node's data — keys present in the update replace
the stored values, fresh keys are appended. -/
def mergeData (data patch : List (String × String)) : List (String × String) :=
  data.map (fun kv =>
    match patch.lookup kv.1 with
    | some v => (kv.1, v)
    | none => kv)
    ++ patch.filter (fun kv => (data.lookup kv.1).isNone)

/-- Modelled from the spec (§4.1, exemption policy): updates classified as
high-frequency output accumulation take no snapshot; the store classifies
them by node type — the output-gallery node type is exempt. -/
def exemptUpdate (n : Node) (_patch : List (String × String)) : Bool :=
  n.type == "outputGallery"

/-- Modelled from the spec (§4.1, updateNodeData): apply the shallow merge;
history-recorded unless the update is classified as exempt output
accumulation; a no-op when the id is absent. -/
def updateNodeData (id : Nat) (patch : List (String × String)) (s : WorkflowState) :
    WorkflowState :=
  match s.nodes.find? (fun nd => nd.id == id) with
  | none => s
  | some n =>
    let write := fun (st : WorkflowState) =>
      { st with nodes := st.nodes.map (fun m =>
          if m.id = id then { m with data := mergeData m.data patch } else m) }
    if exemptUpdate n patch then write s else write (pushHistorySnapshot s)

/-- Modelled from the spec (§4.1, onConnect): a connection request from the
canvas view. -/
structure ConnectRequest where
  source : Nat
  sourceHandle : String
  target : Nat
  targetHandle : String
deriving DecidableEq

/-- Modelled from the spec (§4.1, onConnect): create a new edge when both
endpoints exist, otherwise a no-op; history-recorded.  The spec leaves
self-loop and duplicate-pair policies open, so neither is forbidden. -/
def onConnect (req : ConnectRequest) (s : WorkflowState) : WorkflowState :=
  if s.nodes.any (fun n => n.id == req.source) && s.nodes.any (fun n => n.id == req.target) then
    let s1 := pushHistorySnapshot s
    { s1 with edges := s1.edges ++ [⟨s.nextId, req.source, req.sourceHandle,
                                    req.target, req.targetHandle⟩],
              nextId := s.nextId + 1 }
  else s

/-- Modelled from the spec (§4.1, createGroup): the fixed node footprint used
for bounding-rectangle computation; the spec does not fix node extents. -/
def nodeWidth : Int := 200

/-- Modelled from the spec: fixed node footprint height, as `nodeWidth`. -/
def nodeHeight : Int := 100

/-- Modelled from the spec (§4.1, createGroup): the fixed padding margin
around member extents. -/
def groupPadding : Int := 40

/-- Modelled from the spec (§4.1, createGroup): compute a padded bounding
rectangle from the member nodes, point their `groupId` at the fresh group
and insert the record; a no-op when no listed node exists. -/
def createGroup (ids : List Nat) (s : WorkflowState) : Option Nat × WorkflowState :=
  match s.nodes.filter (fun n => ids.contains n.id) with
  | [] => (none, s)
  | m :: ms =>
    let members := m :: ms
    let minX := members.foldl (fun a n => min a n.position.x) m.position.x
    let minY := members.foldl (fun a n => min a n.position.y) m.position.y
    let maxX := members.foldl (fun a n => max a (n.position.x + nodeWidth)) (m.position.x + nodeWidth)
    let maxY := members.foldl (fun a n => max a (n.position.y + nodeHeight)) (m.position.y + nodeHeight)
    let gid := s.nextId
    let g : NodeGroup :=
      { name := "NodeGroup",
        position := ⟨minX - groupPadding, minY - groupPadding⟩,
        size := ⟨maxX - minX + 2 * groupPadding, maxY - minY + 2 * groupPadding⟩ }
    let s1 := pushHistorySnapshot s
    let newNodes := s1.nodes.map (fun n =>
      if ids.contains n.id then { n with groupId := some gid } else n)
    let s2 : WorkflowState :=
      { s1 with
        nodes := newNodes,
        groups := s1.groups ++ [(gid, g)],
        nextId := s.nextId + 1 }
    (some gid, s2)

/-- Modelled from the spec (§4.1, deleteGroupWithNodes): remove the group
record, every member node and every edge incident to a removed node; clear
`selectedGroupId` when it pointed at the deleted group; a no-op when the
group is absent. -/
def deleteGroupWithNodes (gid : Nat) (s : WorkflowState) : WorkflowState :=
  match s.groups.lookup gid with
  | none => s
  | some _ =>
    let removedIds := (s.nodes.filter (fun n => n.groupId == some gid)).map Node.id
    let s1 := pushHistorySnapshot s
    { s1 with
      groups := s1.groups.filter (fun ge => ge.1 != gid),
      nodes := s1.nodes.filter (fun n => n.groupId != some gid),
      edges := s1.edges.filter (fun e =>
        !(removedIds.contains e.source) && !(removedIds.contains e.target)),
      selectedGroupId := if s.selectedGroupId = some gid then none else s.selectedGroupId }

/-- Modelled from the spec (§4.3): a view-originated node change descriptor
(select toggle, removal, transient position update). -/
inductive NodeChange
  | selectN (id : Nat) (sel : Bool)
  | removeN (id : Nat)
  | moveN (id : Nat) (p : Pos)
deriving DecidableEq

/-- Modelled from the spec (§4.3): a view-originated edge change descriptor;
the only structural one is removal (edge selection carries no model state). -/
inductive EdgeChange
  | removeE (id : Nat)
  | selectE (id : Nat) (sel : Bool)
deriving DecidableEq

/-- Modelled from the spec (§4.3): apply one node change descriptor; a
`remove` cascade-deletes incident edges exactly like `removeNode`. -/
def applyNodeChange (s : WorkflowState) (c : NodeChange) : WorkflowState :=
  match c with
  | .selectN id sel =>
    { s with nodes := s.nodes.map (fun n => if n.id = id then { n with selected := sel } else n) }
  | .moveN id p =>
    { s with nodes := s.nodes.map (fun n => if n.id = id then { n with position := p } else n) }
  | .removeN id =>
    { s with nodes := s.nodes.filter (fun n => n.id != id),
             edges := s.edges.filter (fun e => e.source != id && e.target != id) }

/-- Modelled from the spec (§4.3): apply one edge change descriptor. -/
def applyEdgeChange (s : WorkflowState) (c : EdgeChange) : WorkflowState :=
  match c with
  | .removeE id => { s with edges := s.edges.filter (fun e => e.id != id) }
  | .selectE _ _ => s

/-- Modelled from the spec (§4.3): fold a whole change batch over the state;
performs no history recording of its own. -/
def onNodesChange (cs : List NodeChange) (s : WorkflowState) : WorkflowState :=
  cs.foldl applyNodeChange s

/-- Modelled from the spec (§4.3): the edge-collection analogue of
`onNodesChange`. -/
def onEdgesChange (cs : List EdgeChange) (s : WorkflowState) : WorkflowState :=
  cs.foldl applyEdgeChange s

/-- Modelled from the spec (§4.4): options of `duplicateSelectedNodes`. -/
structure DupOptions where
  selectedGroupId : Option Nat
  offset : Option Pos
deriving DecidableEq

/-- Modelled from the spec (§4.4): the margin used by the default
non-overlap displacement. -/
def dupMargin : Int := 60

/-- Modelled from the spec (§3): the member nodes of a group. -/
def groupMembers (s : WorkflowState) (gid : Nat) : List Node :=
  s.nodes.filter (fun n => n.groupId == some gid)

/-- Modelled from the spec (§4.4, step 1): the group the duplication targets,
either the explicitly supplied one or the currently selected one. -/
def dupSourceGid (opts : DupOptions) (s : WorkflowState) : Option Nat :=
  match opts.selectedGroupId with
  | some gid => some gid
  | none => s.selectedGroupId

/-- Modelled from the spec (§4.4, step 1): the source set — the full
membership of the targeted group when one is targeted and exists,
otherwise every selected node. -/
def sourceSet (opts : DupOptions) (s : WorkflowState) : List Node :=
  match dupSourceGid opts s with
  | some gid =>
    if (s.groups.lookup gid).isSome then groupMembers s gid
    else s.nodes.filter (fun n => n.selected)
  | none => s.nodes.filter (fun n => n.selected)

/-- Modelled from the spec (§4.4, step 4): the groups whose whole (non-empty)
membership lies inside the source set; these are cloned as new groups. -/
def wholeGroupsOf (s : WorkflowState) (src : List Node) : List (Nat × NodeGroup) :=
  s.groups.filter (fun ge =>
    !(groupMembers s ge.1).isEmpty &&
    (groupMembers s ge.1).all (fun nd => src.any (fun sn => sn.id == nd.id)))

/-- Modelled from the spec (§4.4, step 3): the edges with both endpoints
inside the source set. -/
def internalEdgesOf (s : WorkflowState) (src : List Node) : List Edge :=
  s.edges.filter (fun e =>
    src.any (fun sn => sn.id == e.source) && src.any (fun sn => sn.id == e.target))

/-- Modelled from the spec (§4.4): an axis-aligned bounding rectangle. -/
structure Rect where
  x : Int
  y : Int
  w : Int
  h : Int
deriving DecidableEq

/-- Modelled from the spec (§4.4): the footprint rectangle of a node. -/
def nodeRect (n : Node) : Rect :=
  ⟨n.position.x, n.position.y, nodeWidth, nodeHeight⟩

/-- Modelled from the spec (§3): the bounding rectangle of a group. -/
def groupRect (g : NodeGroup) : Rect :=
  ⟨g.position.x, g.position.y, g.size.width, g.size.height⟩

/-- Modelled from the spec (§4.4, placement rule): two rectangles overlap iff
their projections intersect on both axes — the exact formula the test suite
checks with. -/
def rectsOverlap (a b : Rect) : Bool :=
  decide (a.x < b.x + b.w) && decide (b.x < a.x + a.w) &&
  decide (a.y < b.y + b.h) && decide (b.y < a.y + a.h)

/-- Modelled from the spec: translate a rectangle by an offset. -/
def shiftRect (r : Rect) (p : Pos) : Rect :=
  ⟨r.x + p.x, r.y + p.y, r.w, r.h⟩

/-- Modelled from the spec (§4.4): the rectangles spanned by the source set —
source node footprints plus whole-group bounding rectangles. -/
def dupRects (s : WorkflowState) (src : List Node) : List Rect :=
  src.map nodeRect ++ (wholeGroupsOf s src).map (fun ge => groupRect ge.2)

/-- Left edge of a rectangle collection, folded with a seed. -/
def rectsMinX (rs : List Rect) (i : Int) : Int :=
  rs.foldl (fun a r => min a r.x) i

/-- Right edge of a rectangle collection, folded with a seed. -/
def rectsMaxX (rs : List Rect) (i : Int) : Int :=
  rs.foldl (fun a r => max a (r.x + r.w)) i

/-- Modelled from the spec (§4.4, placement rule): the default horizontal
displacement — the source extent plus the fixed margin, guaranteeing the
duplicate's rectangles clear the source's on the x axis. -/
def dupDispX (s : WorkflowState) (src : List Node) : Int :=
  rectsMaxX (dupRects s src) 0 - rectsMinX (dupRects s src) 0 + dupMargin

/-- Modelled from the spec (§4.4, placement rule): the shift applied to the
cloned node positions — the explicit offset verbatim when supplied,
otherwise the default displacement. -/
def dupShift (opts : DupOptions) (s : WorkflowState) (src : List Node) : Pos :=
  match opts.offset with
  | some off => off
  | none => ⟨dupDispX s src, 0⟩

/-- Modelled from the spec (§4.4, placement rule): the shift applied to a
cloned group's position.  The repository's own test (`places duplicated
group in a non-overlapping location`, src/unnamed/part_000) supplies an
explicit `{x:0,y:0}` offset and still demands a non-overlapping duplicate,
so — deviating from the spec's verbatim-offset sentence, which that test
contradicts — an explicit offset is honoured only when the shifted
rectangle would not overlap the original; otherwise the default
displacement is used. -/
def dupGroupShift (opts : DupOptions) (s : WorkflowState) (src : List Node) (g : NodeGroup) : Pos :=
  match opts.offset with
  | some off =>
    if rectsOverlap (groupRect g) (shiftRect (groupRect g) off)
    then ⟨dupDispX s src, 0⟩ else off
  | none => ⟨dupDispX s src, 0⟩

/-- Map over a list together with the element positions, starting from a
given index. -/
def mapIdxFrom {α β : Type} (f : Nat → α → β) : Nat → List α → List β
  | _, [] => []
  | i, a :: as => f i a :: mapIdxFrom f (i + 1) as

/-- Modelled from the spec (§4.4, step 2): source node id ↦ fresh clone id. -/
def dupIdMap (base : Nat) (src : List Node) : List (Nat × Nat) :=
  mapIdxFrom (fun j nd => (nd.id, base + j)) 0 src

/-- Modelled from the spec (§4.4, step 3): rewrite a source node id to its
clone's id. -/
def dupMapId (base : Nat) (src : List Node) (x : Nat) : Nat :=
  ((dupIdMap base src).lookup x).getD 0

/-- Modelled from the spec (§4.4, step 4): cloned group id ↦ fresh group id;
fresh group ids follow the fresh node and edge ids. -/
def dupGidMap (s : WorkflowState) (src : List Node) : List (Nat × Nat) :=
  mapIdxFrom (fun k ge => (ge.1, s.nextId + src.length + (internalEdgesOf s src).length + k))
    0 (wholeGroupsOf s src)

/-- Modelled from the spec (§4.4, step 2): the cloned nodes — fresh ids,
copied type and data, shifted positions, selected, group membership
remapped onto the cloned groups. -/
def dupNewNodes (opts : DupOptions) (s : WorkflowState) (src : List Node) : List Node :=
  mapIdxFrom (fun j nd =>
    { id := s.nextId + j,
      type := nd.type,
      position := ⟨nd.position.x + (dupShift opts s src).x,
                   nd.position.y + (dupShift opts s src).y⟩,
      data := nd.data,
      selected := true,
      groupId :=
        match nd.groupId with
        | some og => (dupGidMap s src).lookup og
        | none => none }) 0 src

/-- Modelled from the spec (§4.4, step 3): the cloned internal edges — fresh
ids, endpoints rewritten to the clone ids, handles preserved. -/
def dupNewEdges (s : WorkflowState) (src : List Node) : List Edge :=
  mapIdxFrom (fun j e =>
    { id := s.nextId + src.length + j,
      source := dupMapId s.nextId src e.source,
      sourceHandle := e.sourceHandle,
      target := dupMapId s.nextId src e.target,
      targetHandle := e.targetHandle }) 0 (internalEdgesOf s src)

/-- Modelled from the spec (§4.4, step 4): the cloned groups — fresh ids, a
"Copy"-marked name, identical size, shifted position. -/
def dupNewGroups (opts : DupOptions) (s : WorkflowState) (src : List Node) :
    List (Nat × NodeGroup) :=
  mapIdxFrom (fun k ge =>
    (s.nextId + src.length + (internalEdgesOf s src).length + k,
     { name := ge.2.name ++ " Copy",
       position := ⟨ge.2.position.x + (dupGroupShift opts s src ge.2).x,
                    ge.2.position.y + (dupGroupShift opts s src ge.2).y⟩,
       size := ge.2.size })) 0 (wholeGroupsOf s src)

/-- Modelled from the spec (§4.4): the duplication and placement engine —
one history transaction that clears the previous selection, appends the
cloned nodes, internal edges and whole groups, retargets the selected
group at its clone and advances the id counter past every fresh id;
a no-op on an empty source set. -/
def duplicateSelectedNodes (opts : DupOptions) (s : WorkflowState) : WorkflowState :=
  if sourceSet opts s = [] then s
  else
    let src := sourceSet opts s
    let s1 := pushHistorySnapshot s
    { s1 with
      nodes := s1.nodes.map (fun nd => { nd with selected := false }) ++ dupNewNodes opts s src,
      edges := s1.edges ++ dupNewEdges s src,
      groups := s1.groups ++ dupNewGroups opts s src,
      selectedGroupId :=
        match dupSourceGid opts s with
        | some gid =>
          match (dupGidMap s src).lookup gid with
          | some ng => some ng
          | none => s.selectedGroupId
        | none => s.selectedGroupId,
      nextId := s.nextId + src.length + (internalEdgesOf s src).length
                  + (wholeGroupsOf s src).length }

/-- Modelled from the spec (§4.1, §4.4): the high-level history-recorded
action vocabulary; `batchM` is the canvas delete transaction — a manual
snapshot followed by node and edge change batches (§4.3). -/
inductive Mutation
  | addNodeM (ty : String) (p : Pos)
  | removeNodeM (id : Nat)
  | updateNodeDataM (id : Nat) (patch : List (String × String))
  | connectM (req : ConnectRequest)
  | createGroupM (ids : List Nat)
  | deleteGroupM (gid : Nat)
  | duplicateM (opts : DupOptions)
  | batchM (ncs : List NodeChange) (ecs : List EdgeChange)
deriving DecidableEq

/-- Modelled from the spec: apply a high-level action to the state. -/
def applyMutation : Mutation → WorkflowState → WorkflowState
  | .addNodeM ty p, s => (addNode ty p s).2
  | .removeNodeM id, s => removeNode id s
  | .updateNodeDataM id patch, s => updateNodeData id patch s
  | .connectM req, s => onConnect req s
  | .createGroupM ids, s => (createGroup ids s).2
  | .deleteGroupM gid, s => deleteGroupWithNodes gid s
  | .duplicateM opts, s => duplicateSelectedNodes opts s
  | .batchM ncs ecs, s => onEdgesChange ecs (onNodesChange ncs (pushHistorySnapshot s))

/-- Modelled from the spec (§4.2, §7): the guard under which a mutation is
history-recorded — its structural lookups succeed and, for data updates,
the update is not classified as exempt output accumulation. -/
def Records : Mutation → WorkflowState → Prop
  | .addNodeM _ _, _ => True
  | .removeNodeM id, s => s.nodes.any (fun n => n.id == id) = true
  | .updateNodeDataM id patch, s =>
    ∃ n, s.nodes.find? (fun nd => nd.id == id) = some n ∧ exemptUpdate n patch = false
  | .connectM req, s =>
    (s.nodes.any (fun n => n.id == req.source) &&
     s.nodes.any (fun n => n.id == req.target)) = true
  | .createGroupM ids, s => s.nodes.filter (fun n => ids.contains n.id) ≠ []
  | .deleteGroupM gid, s => (s.groups.lookup gid).isSome = true
  | .duplicateM opts, s => sourceSet opts s ≠ []
  | .batchM _ _, _ => True

/-- Modelled from the spec (§6): the full public action surface, including
the non-recorded primitives and the history controls. -/
inductive PublicOp
  | mutOp (m : Mutation)
  | undoOp
  | redoOp
  | setSelOp (v : Option Nat)
  | clearWorkflowOp
  | clearHistoryOp
  | nodesChangeOp (cs : List NodeChange)
  | edgesChangeOp (cs : List EdgeChange)
  | pushOp

/-- Modelled from the spec (§6): apply a public operation to the state. -/
def applyOp : PublicOp → WorkflowState → WorkflowState
  | .mutOp m, s => applyMutation m s
  | .undoOp, s => undo s
  | .redoOp, s => redo s
  | .setSelOp v, s => setSelectedGroupId v s
  | .clearWorkflowOp, s => clearWorkflow s
  | .clearHistoryOp, s => clearUndoRedoHistory s
  | .nodesChangeOp cs, s => onNodesChange cs s
  | .edgesChangeOp cs, s => onEdgesChange cs s
  | .pushOp, s => pushHistorySnapshot s

/-- Bound on an optional group reference. -/
def gidBound (o : Option Nat) (b : Nat) : Prop :=
  match o with
  | none => True
  | some g => g < b

instance (o : Option Nat) (b : Nat) : Decidable (gidBound o b) :=
  match o with
  | none => isTrue trivial
  | some g => Nat.decLt g b

/-- Well-formedness of a workflow state: node ids and group keys are
duplicate-free, and every id the state mentions is below the generation
counter (ids are never reused). -/
def WF (s : WorkflowState) : Prop :=
  (s.nodes.map Node.id).Nodup ∧
  (s.groups.map Prod.fst).Nodup ∧
  (∀ n ∈ s.nodes, n.id < s.nextId) ∧
  (∀ ge ∈ s.groups, ge.1 < s.nextId) ∧
  (∀ n ∈ s.nodes, gidBound n.groupId s.nextId)

instance (s : WorkflowState) : Decidable (WF s) := by
  unfold WF
  infer_instance

/-- Referential integrity of a graph content: every edge endpoint names an
existing node (spec §3, Edge invariant). -/
def NoDangling (nodes : List Node) (edges : List Edge) : Prop :=
  ∀ e ∈ edges, (∃ n ∈ nodes, n.id = e.source) ∧ (∃ n ∈ nodes, n.id = e.target)

instance (nodes : List Node) (edges : List Edge) : Decidable (NoDangling nodes edges) := by
  unfold NoDangling
  infer_instance

/-- Referential integrity of a snapshot. -/
def SnapOK (sn : Snapshot) : Prop :=
  NoDangling sn.nodes sn.edges

instance (sn : Snapshot) : Decidable (SnapOK sn) := by
  unfold SnapOK
  infer_instance

/-- Referential integrity of the live content and of every stacked
snapshot, so that undo and redo can only ever restore integral content. -/
def AllOK (s : WorkflowState) : Prop :=
  NoDangling s.nodes s.edges ∧
  (∀ sn ∈ s.undoHistory, SnapOK sn) ∧
  (∀ sn ∈ s.redoHistory, SnapOK sn)

instance (s : WorkflowState) : Decidable (AllOK s) := by
  unfold AllOK
  infer_instance

/-- The empty workflow state a session starts from. -/
def emptyWorkflow : WorkflowState :=
  ⟨[], [], [], none, [], [], 0⟩

/-! Embedding of `src/lib/easing-presets.ts`. -/

/-- The default custom bezier `[0.42, 0, 0.58, 1]`
(`DEFAULT_CUSTOM_BEZIER` in src/lib/easing-presets.ts). -/
def DEFAULT_CUSTOM_BEZIER : List ℚ := [0.42, 0, 0.58, 1]

/-- The preset table (`PRESET_BEZIERS` in src/lib/easing-presets.ts),
modelled as a finite key/value map. -/
def PRESET_BEZIERS : List (String × List ℚ) :=
  [("easeInExpoOutCubic", [0.85, 0, 0.15, 1]),
   ("easeInOutExpo", [1, 0, 0, 1]),
   ("easeInQuartOutQuad", [0.8, 0, 0.2, 1]),
   ("easeInOutCubic", [0.645, 0.045, 0.355, 1]),
   ("easeInOutSine", [0.445, 0.05, 0.55, 0.95])]

/-- Embedding of `getPresetBezier` (src/lib/easing-presets.ts).  The input
`none` covers the `null`/`undefined` arguments; the JS truthiness guard
`preset ?` makes the empty string fall through to `null` before the table
is consulted, and `handles ?? DEFAULT_CUSTOM_BEZIER` picks the default on
a missed lookup; `[...source]` returns the values as a fresh array, which
in this pure model is the value itself. -/
def getPresetBezier (preset : Option String) : List ℚ :=
  let handles : Option (List ℚ) :=
    match preset with
    | some p => if p = "" then none else PRESET_BEZIERS.lookup p
    | none => none
  handles.getD DEFAULT_CUSTOM_BEZIER

/-! Embedding of the drag-handle geometry of
`src/components/CubicBezierEditor.tsx`. -/

/-- The two draggable control points of the editor. -/
inductive Handle
  | p1
  | p2
deriving DecidableEq

/-- A cubic-bezier value `[x1, y1, x2, y2]` as edited by the component. -/
structure BezierValue where
  x1 : ℚ
  y1 : ℚ
  x2 : ℚ
  y2 : ℚ
deriving DecidableEq

/-- The container rectangle returned by `getBoundingClientRect()`. -/
structure DomRect where
  left : ℚ
  top : ℚ
  width : ℚ
  height : ℚ
deriving DecidableEq

/-- Embedding of `clamp` (src/components/CubicBezierEditor.tsx line 12):
`Math.max(0, Math.min(1, value))`. -/
def clamp (v : ℚ) : ℚ :=
  max 0 (min 1 v)

/-- Embedding of `updateHandleFromClient`
(src/components/CubicBezierEditor.tsx lines 68-90): normalise the pointer
position inside the container (falling back to a 260px extent when the
measured one is zero, the JS `rect.width || 260`), clamp both axes into
`[0,1]`, invert the y axis, and replace only the dragged handle's pair,
carrying the other handle over from the current value. -/
def updateHandleFromClient (handle : Handle) (clientX clientY : ℚ) (rect : DomRect)
    (current : BezierValue) : BezierValue :=
  let width := if rect.width = 0 then 260 else rect.width
  let height := if rect.height = 0 then 260 else rect.height
  let normalizedX := clamp ((clientX - rect.left) / width)
  let normalizedY := clamp (1 - (clientY - rect.top) / height)
  match handle with
  | .p1 => ⟨normalizedX, normalizedY, current.x2, current.y2⟩
  | .p2 => ⟨current.x1, current.y1, normalizedX, normalizedY⟩

/-! Concrete scenario states, mirroring the vitest suite, used by the
witness theorems below. -/

/-- A prompt node added to the empty session. -/
def wsPrompt : WorkflowState :=
  (addNode "prompt" ⟨0, 0⟩ emptyWorkflow).2

/-- An output-gallery node added to the empty session, history cleared. -/
def wsGallery : WorkflowState :=
  clearUndoRedoHistory (addNode "outputGallery" ⟨0, 0⟩ emptyWorkflow).2

/-- Two connected nodes (prompt at the source), as in the delete/undo test. -/
def wsConn : WorkflowState :=
  onConnect ⟨0, "text", 1, "text"⟩
    (addNode "nanoBanana" ⟨200, 0⟩ (addNode "prompt" ⟨0, 0⟩ emptyWorkflow).2).2

/-- Two grouped nodes with the group selected, as in the group
duplication-placement test. -/
def wsDupSel : WorkflowState :=
  setSelectedGroupId (some 2)
    (createGroup [0, 1]
      (addNode "nanoBanana" ⟨360, 80⟩ (addNode "prompt" ⟨40, 80⟩ emptyWorkflow).2).2).2

/-- The result of duplicating the selected group with the explicit zero
offset, as the placement test does. -/
def wsDupZero : WorkflowState :=
  duplicateSelectedNodes ⟨some 2, some ⟨0, 0⟩⟩ wsDupSel

/-- Two connected, selected nodes with data, as in the selection
duplication test. -/
def wsSelBase : WorkflowState :=
  onNodesChange [NodeChange.selectN 0 true, NodeChange.selectN 1 true]
    (onConnect ⟨0, "text", 1, "text"⟩
      (updateNodeData 0 [("prompt", "keep this context")]
        (addNode "nanoBanana" ⟨280, 20⟩ (addNode "prompt" ⟨10, 20⟩ emptyWorkflow).2).2))

/-- Two connected nodes grouped, the group selected, as in the
group-deletion test. -/
def wsGroupDel : WorkflowState :=
  setSelectedGroupId (some 3)
    (createGroup [0, 1]
      (onConnect ⟨0, "text", 1, "text"⟩
        (addNode "nanoBanana" ⟨220, 0⟩ (addNode "prompt" ⟨0, 0⟩ emptyWorkflow).2).2)).2

/-! Basic facts about the indexed map and the association-list lookups used
by the duplication engine. -/

theorem mapIdxFrom_length {α β : Type} (f : Nat → α → β) :
    ∀ (i : Nat) (l : List α), (mapIdxFrom f i l).length = l.length := by
  intro i l
  induction l generalizing i with
  | nil => rfl
  | cons a as ih => simp [mapIdxFrom, ih]

theorem mapIdxFrom_getElem? {α β : Type} (f : Nat → α → β) :
    ∀ (l : List α) (i j : Nat), (mapIdxFrom f i l)[j]? = l[j]?.map (f (i + j)) := by
  intro l
  induction l with
  | nil => intro i j; simp [mapIdxFrom]
  | cons a as ih =>
    intro i j
    cases j with
    | zero => simp [mapIdxFrom]
    | succ j =>
      simp only [mapIdxFrom, List.getElem?_cons_succ]
      rw [ih]
      have h : i + 1 + j = i + (j + 1) := by omega
      rw [h]

theorem mem_mapIdxFrom {α β : Type} (f : Nat → α → β) :
    ∀ (l : List α) (i : Nat) (b : β), b ∈ mapIdxFrom f i l →
      ∃ j a, l[j]? = some a ∧ b = f (i + j) a := by
  intro l
  induction l with
  | nil => intro i b h; simp [mapIdxFrom] at h
  | cons x xs ih =>
    intro i b h
    simp only [mapIdxFrom, List.mem_cons] at h
    rcases h with h | h
    · exact ⟨0, x, by simp, by simpa using h⟩
    · obtain ⟨j, a, hj, hb⟩ := ih (i + 1) b h
      refine ⟨j + 1, a, by simpa using hj, ?_⟩
      have h2 : i + (j + 1) = i + 1 + j := by omega
      rw [h2]; exact hb

theorem lookup_mem {α β : Type} [BEq α] [LawfulBEq α] :
    ∀ (l : List (α × β)) (k : α) (v : β), l.lookup k = some v → (k, v) ∈ l := by
  intro l k v h
  induction l with
  | nil => simp at h
  | cons p ps ih =>
    rw [List.lookup_cons] at h
    by_cases hk : k == p.1
    · have hk' : k = p.1 := by simpa using hk
      simp only [hk'] at h ⊢
      cases p with
      | mk a b =>
        simp only at h ⊢
        rw [show (a == a) = true by simp] at h
        simp only at h
        cases h
        exact List.mem_cons_self _ _
    · rw [show (k == p.1) = false by simpa using hk] at h
      simp only at h
      exact List.mem_cons_of_mem _ (ih h)

theorem lookup_unique {β : Type} (l : List (Nat × β)) (hnd : (l.map Prod.fst).Nodup)
    {k : Nat} {v : β} (hm : (k, v) ∈ l) : l.lookup k = some v := by
  induction l with
  | nil => simp at hm
  | cons p ps ih =>
    simp only [List.map_cons, List.nodup_cons] at hnd
    rcases List.mem_cons.mp hm with h | h
    · cases h
      simp
    · have hk : k ≠ p.1 := by
        intro he
        exact hnd.1 (he ▸ (List.mem_map.mpr ⟨(k, v), h, rfl⟩))
      rw [List.lookup_cons, show (k == p.1) = false by simpa using hk]
      exact ih hnd.2 h

theorem getLast?_mem {α : Type} : ∀ (l : List α) (a : α), l.getLast? = some a → a ∈ l := by
  intro l
  induction l with
  | nil => intro a h; simp at h
  | cons x xs ih =>
    intro a h
    cases xs with
    | nil => simp_all
    | cons y ys =>
      rw [List.getLast?_cons_cons] at h
      exact List.mem_cons_of_mem _ (ih a h)

theorem foldl_min_le_init {α : Type} (g : α → Int) :
    ∀ (l : List α) (i : Int), l.foldl (fun a x => min a (g x)) i ≤ i := by
  intro l
  induction l with
  | nil => intro i; simp
  | cons x xs ih =>
    intro i
    calc (x :: xs).foldl (fun a x => min a (g x)) i
        = xs.foldl (fun a x => min a (g x)) (min i (g x)) := rfl
      _ ≤ min i (g x) := ih _
      _ ≤ i := min_le_left _ _

theorem foldl_min_le {α : Type} (g : α → Int) :
    ∀ (l : List α) (i : Int) (a : α), a ∈ l → l.foldl (fun a x => min a (g x)) i ≤ g a := by
  intro l
  induction l with
  | nil => intro i a h; simp at h
  | cons x xs ih =>
    intro i a h
    rcases List.mem_cons.mp h with h | h
    · subst h
      calc (a :: xs).foldl (fun b x => min b (g x)) i
          = xs.foldl (fun b x => min b (g x)) (min i (g a)) := rfl
        _ ≤ min i (g a) := foldl_min_le_init g xs _
        _ ≤ g a := min_le_right _ _
    · exact ih _ a h

theorem le_foldl_max_init {α : Type} (g : α → Int) :
    ∀ (l : List α) (i : Int), i ≤ l.foldl (fun a x => max a (g x)) i := by
  intro l
  induction l with
  | nil => intro i; simp
  | cons x xs ih =>
    intro i
    calc i ≤ max i (g x) := le_max_left _ _
      _ ≤ xs.foldl (fun a x => max a (g x)) (max i (g x)) := ih _
      _ = (x :: xs).foldl (fun a x => max a (g x)) i := rfl

theorem le_foldl_max {α : Type} (g : α → Int) :
    ∀ (l : List α) (i : Int) (a : α), a ∈ l → g a ≤ l.foldl (fun a x => max a (g x)) i := by
  intro l
  induction l with
  | nil => intro i a h; simp at h
  | cons x xs ih =>
    intro i a h
    rcases List.mem_cons.mp h with h | h
    · subst h
      calc g a ≤ max i (g a) := le_max_right _ _
        _ ≤ xs.foldl (fun b x => max b (g x)) (max i (g a)) := le_foldl_max_init g xs _
        _ = (a :: xs).foldl (fun b x => max b (g x)) i := rfl
    · exact ih _ a h

theorem filter_eq_singleton {α : Type} (p : α → Bool) :
    ∀ (l : List α), l.Nodup → ∀ a ∈ l, p a = true → (∀ x ∈ l, p x = true → x = a) →
      l.filter p = [a] := by
  intro l
  induction l with
  | nil => intro _ a h; simp at h
  | cons x xs ih =>
    intro hnd a ha hp hall
    rw [List.nodup_cons] at hnd
    rcases List.mem_cons.mp ha with h | h
    · subst h
      have hxs : xs.filter p = [] := by
        rw [List.filter_eq_nil_iff]
        intro b hb hpb
        exact hnd.1 ((hall b (List.mem_cons_of_mem _ hb) hpb) ▸ hb)
      simp [List.filter_cons, hp, hxs]
    · have hx : p x = false := by
        rcases hpx : p x with _ | _
        · rfl
        · exact False.elim (hnd.1 (by rw [hall x (List.mem_cons_self _ _) hpx]; exact h))
      simp only [List.filter_cons, hx]
      exact ih hnd.2 a h hp (fun b hb hpb => hall b (List.mem_cons_of_mem _ hb) hpb)

theorem nodup_id_inj {l : List Node} (hnd : (l.map Node.id).Nodup)
    {a b : Node} (ha : a ∈ l) (hb : b ∈ l) (hid : a.id = b.id) : a = b := by
  induction l with
  | nil => simp at ha
  | cons x xs ih =>
    simp only [List.map_cons, List.nodup_cons] at hnd
    rcases List.mem_cons.mp ha with h1 | h1 <;> rcases List.mem_cons.mp hb with h2 | h2
    · exact h1.trans h2.symm
    · subst h1
      exact absurd (hid ▸ List.mem_map.mpr ⟨b, h2, rfl⟩) hnd.1
    · subst h2
      exact absurd (hid ▸ List.mem_map.mpr ⟨a, h1, rfl⟩) hnd.1
    · exact ih hnd.2 h1 h2

theorem dupIdMap_lookup :
    ∀ (src : List Node) (base i0 j : Nat) (nd : Node),
      (src.map Node.id).Nodup → src[j]? = some nd →
      (mapIdxFrom (fun k x => (x.id, base + k)) i0 src).lookup nd.id
        = some (base + (i0 + j)) := by
  intro src
  induction src with
  | nil => intro base i0 j nd _ h; simp at h
  | cons x xs ih =>
    intro base i0 j nd hnd hj
    simp only [List.map_cons, List.nodup_cons] at hnd
    cases j with
    | zero =>
      simp only [List.getElem?_cons_zero, Option.some.injEq] at hj
      subst hj
      simp [mapIdxFrom]
    | succ j =>
      simp only [List.getElem?_cons_succ] at hj
      have hne : nd.id ≠ x.id := by
        intro he
        exact hnd.1 (he ▸ List.mem_map.mpr ⟨nd, List.getElem?_mem hj, rfl⟩)
      simp only [mapIdxFrom, List.lookup_cons, show (nd.id == x.id) = false by simpa using hne]
      rw [ih base (i0 + 1) j nd hnd.2 hj]
      have h2 : i0 + 1 + j = i0 + (j + 1) := by omega
      rw [h2]

/-! History-shape lemmas: every history-recorded action first pushes the
pre-state snapshot and clears the redo stack. -/

theorem applyNodeChange_undoHistory (s : WorkflowState) (c : NodeChange) :
    (applyNodeChange s c).undoHistory = s.undoHistory := by
  cases c <;> rfl

theorem applyNodeChange_redoHistory (s : WorkflowState) (c : NodeChange) :
    (applyNodeChange s c).redoHistory = s.redoHistory := by
  cases c <;> rfl

theorem applyEdgeChange_undoHistory (s : WorkflowState) (c : EdgeChange) :
    (applyEdgeChange s c).undoHistory = s.undoHistory := by
  cases c <;> rfl

theorem applyEdgeChange_redoHistory (s : WorkflowState) (c : EdgeChange) :
    (applyEdgeChange s c).redoHistory = s.redoHistory := by
  cases c <;> rfl

theorem onNodesChange_undoHistory :
    ∀ (cs : List NodeChange) (s : WorkflowState),
      (onNodesChange cs s).undoHistory = s.undoHistory := by
  intro cs
  induction cs with
  | nil => intro s; rfl
  | cons c cs ih =>
    intro s
    calc (onNodesChange (c :: cs) s).undoHistory
        = (onNodesChange cs (applyNodeChange s c)).undoHistory := rfl
      _ = (applyNodeChange s c).undoHistory := ih _
      _ = s.undoHistory := applyNodeChange_undoHistory s c

theorem onNodesChange_redoHistory :
    ∀ (cs : List NodeChange) (s : WorkflowState),
      (onNodesChange cs s).redoHistory = s.redoHistory := by
  intro cs
  induction cs with
  | nil => intro s; rfl
  | cons c cs ih =>
    intro s
    calc (onNodesChange (c :: cs) s).redoHistory
        = (onNodesChange cs (applyNodeChange s c)).redoHistory := rfl
      _ = (applyNodeChange s c).redoHistory := ih _
      _ = s.redoHistory := applyNodeChange_redoHistory s c

theorem onEdgesChange_undoHistory :
    ∀ (cs : List EdgeChange) (s : WorkflowState),
      (onEdgesChange cs s).undoHistory = s.undoHistory := by
  intro cs
  induction cs with
  | nil => intro s; rfl
  | cons c cs ih =>
    intro s
    calc (onEdgesChange (c :: cs) s).undoHistory
        = (onEdgesChange cs (applyEdgeChange s c)).undoHistory := rfl
      _ = (applyEdgeChange s c).undoHistory := ih _
      _ = s.undoHistory := applyEdgeChange_undoHistory s c

theorem onEdgesChange_redoHistory :
    ∀ (cs : List EdgeChange) (s : WorkflowState),
      (onEdgesChange cs s).redoHistory = s.redoHistory := by
  intro cs
  induction cs with
  | nil => intro s; rfl
  | cons c cs ih =>
    intro s
    calc (onEdgesChange (c :: cs) s).redoHistory
        = (onEdgesChange cs (applyEdgeChange s c)).redoHistory := rfl
      _ = (applyEdgeChange s c).redoHistory := ih _
      _ = s.redoHistory := applyEdgeChange_redoHistory s c

theorem applyMutation_recorded_shape (m : Mutation) (s : WorkflowState) (h : Records m s) :
    (applyMutation m s).undoHistory = s.undoHistory ++ [obsOf s] ∧
    (applyMutation m s).redoHistory = [] := by
  cases m with
  | addNodeM ty p => exact ⟨rfl, rfl⟩
  | removeNodeM id =>
    simp only [Records] at h
    simp [applyMutation, removeNode, h, pushHistorySnapshot]
  | updateNodeDataM id patch =>
    obtain ⟨n, hfind, hex⟩ := h
    simp [applyMutation, updateNodeData, hfind, hex, pushHistorySnapshot]
  | connectM req =>
    simp only [Records] at h
    simp [applyMutation, onConnect, h, pushHistorySnapshot]
  | createGroupM ids =>
    simp only [Records] at h
    rcases hf : s.nodes.filter (fun n => ids.contains n.id) with _ | ⟨m, ms⟩
    · exact absurd hf h
    · simp only [applyMutation]
      unfold createGroup
      rw [hf]
      exact ⟨rfl, rfl⟩
  | deleteGroupM gid =>
    simp only [Records, Option.isSome_iff_exists] at h
    obtain ⟨g, hg⟩ := h
    simp [applyMutation, deleteGroupWithNodes, hg, pushHistorySnapshot]
  | duplicateM opts =>
    simp only [Records] at h
    simp [applyMutation, duplicateSelectedNodes, h, pushHistorySnapshot]
  | batchM ncs ecs =>
    constructor
    · rw [applyMutation, onEdgesChange_undoHistory, onNodesChange_undoHistory]
      rfl
    · rw [applyMutation, onEdgesChange_redoHistory, onNodesChange_redoHistory]
      rfl

theorem undo_after_push (s' : WorkflowState) (u : List Snapshot) (x : Snapshot)
    (hu : s'.undoHistory = u ++ [x]) :
    undo s' = { s' with
                nodes := x.nodes, edges := x.edges, groups := x.groups,
                undoHistory := u, redoHistory := s'.redoHistory ++ [obsOf s'] } := by
  unfold undo
  rw [hu, List.getLast?_concat, List.dropLast_concat]

theorem redo_after_push (s' : WorkflowState) (u : List Snapshot) (x : Snapshot)
    (hr : s'.redoHistory = u ++ [x]) :
    redo s' = { s' with
                nodes := x.nodes, edges := x.edges, groups := x.groups,
                redoHistory := u, undoHistory := s'.undoHistory ++ [obsOf s'] } := by
  unfold redo
  rw [hr, List.getLast?_concat, List.dropLast_concat]

/-- C1: for every state and every history-recorded mutation applied to it —
including the canvas delete transaction built from a manual snapshot and
node/edge change batches — one `undo()` restores the observable
nodes/edges/groups (hence also a deleted node's incident edges with their
original edge ids) exactly to their pre-mutation value, and a `redo()`
immediately after, with no intervening recorded mutation, reapplies the
mutation's observable effect exactly. -/
theorem undo_redo_round_trip (m : Mutation) (s : WorkflowState) (h : Records m s) :
    obsOf (undo (applyMutation m s)) = obsOf s ∧
    obsOf (redo (undo (applyMutation m s))) = obsOf (applyMutation m s) := by
  obtain ⟨hu, hr⟩ := applyMutation_recorded_shape m s h
  have h1 := undo_after_push (applyMutation m s) s.undoHistory (obsOf s) hu
  have h2 : (undo (applyMutation m s)).redoHistory
      = [] ++ [obsOf (applyMutation m s)] := by
    rw [h1]
    simp [hr]
  have h3 := redo_after_push (undo (applyMutation m s)) [] (obsOf (applyMutation m s)) h2
  constructor
  · rw [h1]
    rfl
  · rw [h3]
    rfl

/-- C1 witness: the round trip at a concrete recorded mutation. -/
theorem undo_redo_round_trip_witness :
    obsOf (undo (applyMutation (Mutation.addNodeM "prompt" ⟨0, 0⟩) emptyWorkflow))
      = obsOf emptyWorkflow ∧
    obsOf (redo (undo (applyMutation (Mutation.addNodeM "prompt" ⟨0, 0⟩) emptyWorkflow)))
      = obsOf (applyMutation (Mutation.addNodeM "prompt" ⟨0, 0⟩) emptyWorkflow) :=
  undo_redo_round_trip (Mutation.addNodeM "prompt" ⟨0, 0⟩) emptyWorkflow trivial

/-- C8: every operation whose structural lookup fails is a complete no-op —
the state, including both history stacks, is returned unchanged and no
history entry is recorded — and `undo`/`redo` on an empty respective stack
likewise leave the entire state unchanged. -/
theorem failed_lookup_noops (s : WorkflowState) (id gid : Nat)
    (patch : List (String × String)) (req : ConnectRequest) (ids : List Nat)
    (opts : DupOptions) :
    (s.nodes.any (fun n => n.id == id) = false → removeNode id s = s) ∧
    (s.nodes.find? (fun nd => nd.id == id) = none → updateNodeData id patch s = s) ∧
    ((s.nodes.any (fun n => n.id == req.source) &&
      s.nodes.any (fun n => n.id == req.target)) = false → onConnect req s = s) ∧
    (s.nodes.filter (fun n => ids.contains n.id) = [] → createGroup ids s = (none, s)) ∧
    (s.groups.lookup gid = none → deleteGroupWithNodes gid s = s) ∧
    (sourceSet opts s = [] → duplicateSelectedNodes opts s = s) ∧
    (s.undoHistory = [] → undo s = s) ∧
    (s.redoHistory = [] → redo s = s) := by
  refine ⟨?_, ?_, ?_, ?_, ?_, ?_, ?_, ?_⟩
  · intro h
    simp [removeNode, h]
  · intro h
    unfold updateNodeData
    rw [h]
  · intro h
    simp [onConnect, h]
  · intro h
    unfold createGroup
    rw [h]
  · intro h
    unfold deleteGroupWithNodes
    rw [h]
  · intro h
    simp [duplicateSelectedNodes, h]
  · intro h
    unfold undo
    rw [h]
    rfl
  · intro h
    unfold redo
    rw [h]
    rfl

/-- C8 witness: the no-ops at concrete failing inputs on the empty state. -/
theorem failed_lookup_noops_witness :
    removeNode 0 emptyWorkflow = emptyWorkflow ∧
    updateNodeData 0 [] emptyWorkflow = emptyWorkflow ∧
    onConnect ⟨0, "text", 1, "text"⟩ emptyWorkflow = emptyWorkflow ∧
    createGroup [0] emptyWorkflow = (none, emptyWorkflow) ∧
    deleteGroupWithNodes 0 emptyWorkflow = emptyWorkflow ∧
    duplicateSelectedNodes ⟨none, none⟩ emptyWorkflow = emptyWorkflow ∧
    undo emptyWorkflow = emptyWorkflow ∧
    redo emptyWorkflow = emptyWorkflow := by
  obtain ⟨h1, h2, h3, h4, h5, h6, h7, h8⟩ :=
    failed_lookup_noops emptyWorkflow 0 0 [] ⟨0, "text", 1, "text"⟩ [0] ⟨none, none⟩
  exact ⟨h1 rfl, h2 rfl, h3 rfl, h4 rfl, h5 rfl, h6 rfl, h7 rfl, h8 rfl⟩

theorem find?_update (l : List Node) (id : Nat) (patch : List (String × String)) :
    (l.map (fun m => if m.id = id then { m with data := mergeData m.data patch } else m)).find?
        (fun nd => nd.id == id)
      = (l.find? (fun nd => nd.id == id)).map
          (fun m => if m.id = id then { m with data := mergeData m.data patch } else m) := by
  induction l with
  | nil => rfl
  | cons x xs ih =>
    by_cases hx : x.id = id
    · simp only [List.map_cons, if_pos hx]
      rw [List.find?_cons_of_pos _ (by simp [hx]), List.find?_cons_of_pos _ (by simp [hx])]
      simp [hx]
    · simp only [List.map_cons, if_neg hx]
      rw [List.find?_cons_of_neg _ (by simp [hx]), List.find?_cons_of_neg _ (by simp [hx])]
      exact ih

/-- C4: an `updateNodeData` call that finds its node pushes exactly one undo
entry when the update is not exempt; when the update is classified as
exempt output accumulation it still applies the data merge but pushes no
entry, leaves the undo stack untouched and leaves `canUndo` exactly as it
was (in particular false if it was false). -/
theorem updateNodeData_history_policy (s : WorkflowState) (id : Nat)
    (patch : List (String × String)) (n : Node)
    (hfind : s.nodes.find? (fun nd => nd.id == id) = some n) :
    (exemptUpdate n patch = false →
      (updateNodeData id patch s).undoHistory = s.undoHistory ++ [obsOf s] ∧
      (updateNodeData id patch s).undoHistory.length = s.undoHistory.length + 1) ∧
    (exemptUpdate n patch = true →
      (updateNodeData id patch s).undoHistory = s.undoHistory ∧
      canUndo (updateNodeData id patch s) = canUndo s ∧
      (updateNodeData id patch s).nodes.find? (fun nd => nd.id == id)
        = some { n with data := mergeData n.data patch }) := by
  have hid : n.id = id := by
    have := List.find?_some hfind
    simpa using this
  constructor
  · intro hex
    unfold updateNodeData
    rw [hfind]
    simp [hex, pushHistorySnapshot]
  · intro hex
    unfold updateNodeData
    rw [hfind]
    simp only [hex, if_true]
    refine ⟨trivial, rfl, ?_⟩
    show (s.nodes.map (fun m =>
        if m.id = id then { m with data := mergeData m.data patch } else m)).find?
        (fun nd => nd.id == id) = _
    rw [find?_update, hfind]
    simp [hid]

/-- C4 witness: one update on a prompt node pushes exactly one entry; one
image-accumulation update on an output-gallery node pushes none, applies
the merge and leaves `canUndo` false. -/
theorem updateNodeData_history_policy_witness :
    ((updateNodeData 0 [("prompt", "hello")] wsPrompt).undoHistory
        = wsPrompt.undoHistory ++ [obsOf wsPrompt] ∧
     (updateNodeData 0 [("prompt", "hello")] wsPrompt).undoHistory.length
        = wsPrompt.undoHistory.length + 1) ∧
    ((updateNodeData 0 [("images", "img-1")] wsGallery).undoHistory = wsGallery.undoHistory ∧
     canUndo (updateNodeData 0 [("images", "img-1")] wsGallery) = canUndo wsGallery ∧
     (updateNodeData 0 [("images", "img-1")] wsGallery).nodes.find? (fun nd => nd.id == 0)
        = some { (⟨0, "outputGallery", ⟨0, 0⟩, [], false, none⟩ : Node) with
                 data := mergeData [] [("images", "img-1")] }) := by
  constructor
  · exact (updateNodeData_history_policy wsPrompt 0 [("prompt", "hello")]
      ⟨0, "prompt", ⟨0, 0⟩, [], false, none⟩ (by decide)).1 (by decide)
  · exact (updateNodeData_history_policy wsGallery 0 [("images", "img-1")]
      ⟨0, "outputGallery", ⟨0, 0⟩, [], false, none⟩ (by decide)).2 (by decide)

theorem lookup_filter_ne {β : Type} (l : List (Nat × β)) (k : Nat) :
    (l.filter (fun ge => ge.1 != k)).lookup k = none := by
  rw [List.lookup_eq_none_iff]
  intro p hp
  have h := (List.mem_filter.mp hp).2
  simp only [bne_iff_ne] at h
  simpa using fun he => h he.symm

/-- C7: deleting an existing group removes the group record, every node
whose `groupId` equals it, every edge incident to a removed node, and
clears `selectedGroupId` exactly when it pointed at the deleted group. -/
theorem deleteGroupWithNodes_cascade (s : WorkflowState) (gid : Nat) (g : NodeGroup)
    (hg : s.groups.lookup gid = some g) :
    (deleteGroupWithNodes gid s).groups.lookup gid = none ∧
    (∀ n ∈ (deleteGroupWithNodes gid s).nodes, n.groupId ≠ some gid) ∧
    (∀ e ∈ (deleteGroupWithNodes gid s).edges, ∀ n ∈ s.nodes, n.groupId = some gid →
      e.source ≠ n.id ∧ e.target ≠ n.id) ∧
    (deleteGroupWithNodes gid s).selectedGroupId
      = (if s.selectedGroupId = some gid then none else s.selectedGroupId) := by
  unfold deleteGroupWithNodes
  rw [hg]
  refine ⟨lookup_filter_ne _ _, ?_, ?_, rfl⟩
  · intro n hn
    have h := (List.mem_filter.mp hn).2
    simpa using h
  · intro e he n hn hgid
    have h := (List.mem_filter.mp he).2
    rw [Bool.and_eq_true] at h
    have hmem : n.id ∈ (s.nodes.filter (fun n => n.groupId == some gid)).map Node.id :=
      List.mem_map.mpr ⟨n, List.mem_filter.mpr ⟨hn, by simp [hgid]⟩, rfl⟩
    constructor
    · intro hes
      have h1 := h.1
      simp only [Bool.not_eq_true'] at h1
      have hmem2 : e.source ∈ (s.nodes.filter (fun n => n.groupId == some gid)).map Node.id := by
        rw [hes]; exact hmem
      have hc : ((s.nodes.filter (fun n => n.groupId == some gid)).map Node.id).contains e.source
          = true := by simp [hmem2]
      rw [hc] at h1
      simp at h1
    · intro het
      have h2 := h.2
      simp only [Bool.not_eq_true'] at h2
      have hmem2 : e.target ∈ (s.nodes.filter (fun n => n.groupId == some gid)).map Node.id := by
        rw [het]; exact hmem
      have hc : ((s.nodes.filter (fun n => n.groupId == some gid)).map Node.id).contains e.target
          = true := by simp [hmem2]
      rw [hc] at h2
      simp at h2

/-- C7 witness: the cascade at the concrete grouped scenario. -/
theorem deleteGroupWithNodes_cascade_witness :
    (deleteGroupWithNodes 3 wsGroupDel).groups.lookup 3 = none ∧
    (∀ n ∈ (deleteGroupWithNodes 3 wsGroupDel).nodes, n.groupId ≠ some 3) ∧
    (∀ e ∈ (deleteGroupWithNodes 3 wsGroupDel).edges, ∀ n ∈ wsGroupDel.nodes,
      n.groupId = some 3 → e.source ≠ n.id ∧ e.target ≠ n.id) ∧
    (deleteGroupWithNodes 3 wsGroupDel).selectedGroupId
      = (if wsGroupDel.selectedGroupId = some 3 then none else wsGroupDel.selectedGroupId) :=
  deleteGroupWithNodes_cascade wsGroupDel 3
    ⟨"NodeGroup", ⟨-40, -40⟩, ⟨500, 180⟩⟩ (by decide)

/-! Referential-integrity preservation across the public surface. -/

theorem noDangling_map_id (nodes : List Node) (edges : List Edge) (f : Node → Node)
    (hf : ∀ n, (f n).id = n.id) (h : NoDangling nodes edges) :
    NoDangling (nodes.map f) edges := by
  intro e he
  obtain ⟨⟨n1, hn1, hid1⟩, ⟨n2, hn2, hid2⟩⟩ := h e he
  exact ⟨⟨f n1, List.mem_map.mpr ⟨n1, hn1, rfl⟩, by rw [hf]; exact hid1⟩,
         ⟨f n2, List.mem_map.mpr ⟨n2, hn2, rfl⟩, by rw [hf]; exact hid2⟩⟩

theorem noDangling_filter_edges (nodes : List Node) (edges : List Edge) (p : Edge → Bool)
    (h : NoDangling nodes edges) : NoDangling nodes (edges.filter p) := by
  intro e he
  exact h e (List.mem_filter.mp he).1

theorem noDangling_remove (nodes : List Node) (edges : List Edge) (id : Nat)
    (h : NoDangling nodes edges) :
    NoDangling (nodes.filter (fun n => n.id != id))
      (edges.filter (fun e => e.source != id && e.target != id)) := by
  intro e he
  obtain ⟨hee, hcond⟩ := List.mem_filter.mp he
  rw [Bool.and_eq_true, bne_iff_ne, bne_iff_ne] at hcond
  obtain ⟨⟨n1, hn1, hid1⟩, ⟨n2, hn2, hid2⟩⟩ := h e hee
  refine ⟨⟨n1, List.mem_filter.mpr ⟨hn1, ?_⟩, hid1⟩, ⟨n2, List.mem_filter.mpr ⟨hn2, ?_⟩, hid2⟩⟩
  · rw [bne_iff_ne]
    rw [hid1]
    exact hcond.1
  · rw [bne_iff_ne]
    rw [hid2]
    exact hcond.2

theorem applyNodeChange_noDangling (s : WorkflowState) (c : NodeChange)
    (h : NoDangling s.nodes s.edges) :
    NoDangling (applyNodeChange s c).nodes (applyNodeChange s c).edges := by
  cases c with
  | selectN id sel =>
    exact noDangling_map_id _ _ _ (fun n => by by_cases hn : n.id = id <;> simp [hn]) h
  | moveN id p =>
    exact noDangling_map_id _ _ _ (fun n => by by_cases hn : n.id = id <;> simp [hn]) h
  | removeN id =>
    exact noDangling_remove _ _ _ h

theorem applyEdgeChange_noDangling (s : WorkflowState) (c : EdgeChange)
    (h : NoDangling s.nodes s.edges) :
    NoDangling (applyEdgeChange s c).nodes (applyEdgeChange s c).edges := by
  cases c with
  | removeE id => exact noDangling_filter_edges _ _ _ h
  | selectE id sel => exact h

theorem applyNodeChange_allOK (s : WorkflowState) (c : NodeChange) (h : AllOK s) :
    AllOK (applyNodeChange s c) := by
  refine ⟨applyNodeChange_noDangling s c h.1, ?_, ?_⟩
  · rw [applyNodeChange_undoHistory]
    exact h.2.1
  · rw [applyNodeChange_redoHistory]
    exact h.2.2

theorem applyEdgeChange_allOK (s : WorkflowState) (c : EdgeChange) (h : AllOK s) :
    AllOK (applyEdgeChange s c) := by
  refine ⟨applyEdgeChange_noDangling s c h.1, ?_, ?_⟩
  · rw [applyEdgeChange_undoHistory]
    exact h.2.1
  · rw [applyEdgeChange_redoHistory]
    exact h.2.2

theorem onNodesChange_allOK : ∀ (cs : List NodeChange) (s : WorkflowState),
    AllOK s → AllOK (onNodesChange cs s) := by
  intro cs
  induction cs with
  | nil => intro s h; exact h
  | cons c cs ih =>
    intro s h
    exact ih (applyNodeChange s c) (applyNodeChange_allOK s c h)

theorem onEdgesChange_allOK : ∀ (cs : List EdgeChange) (s : WorkflowState),
    AllOK s → AllOK (onEdgesChange cs s) := by
  intro cs
  induction cs with
  | nil => intro s h; exact h
  | cons c cs ih =>
    intro s h
    exact ih (applyEdgeChange s c) (applyEdgeChange_allOK s c h)

theorem pushHistorySnapshot_allOK (s : WorkflowState) (h : AllOK s) :
    AllOK (pushHistorySnapshot s) := by
  refine ⟨h.1, ?_, ?_⟩
  · intro sn hsn
    rcases List.mem_append.mp hsn with hm | hm
    · exact h.2.1 sn hm
    · rcases List.mem_singleton.mp hm with rfl
      exact h.1
  · intro sn hsn
    simp [pushHistorySnapshot] at hsn

theorem undo_allOK (s : WorkflowState) (h : AllOK s) : AllOK (undo s) := by
  unfold undo
  rcases hl : s.undoHistory.getLast? with _ | sn
  · exact h
  · have hsn : sn ∈ s.undoHistory := getLast?_mem _ _ hl
    refine ⟨h.2.1 sn hsn, ?_, ?_⟩
    · intro x hx
      exact h.2.1 x ((List.dropLast_sublist _).subset hx)
    · intro x hx
      rcases List.mem_append.mp hx with hm | hm
      · exact h.2.2 x hm
      · rcases List.mem_singleton.mp hm with rfl
        exact h.1

theorem redo_allOK (s : WorkflowState) (h : AllOK s) : AllOK (redo s) := by
  unfold redo
  rcases hl : s.redoHistory.getLast? with _ | sn
  · exact h
  · have hsn : sn ∈ s.redoHistory := getLast?_mem _ _ hl
    refine ⟨h.2.2 sn hsn, ?_, ?_⟩
    · intro x hx
      rcases List.mem_append.mp hx with hm | hm
      · exact h.2.1 x hm
      · rcases List.mem_singleton.mp hm with rfl
        exact h.1
    · intro x hx
      exact h.2.2 x ((List.dropLast_sublist _).subset hx)

theorem sourceSet_sublist (opts : DupOptions) (s : WorkflowState) :
    List.Sublist (sourceSet opts s) s.nodes := by
  unfold sourceSet
  cases dupSourceGid opts s with
  | none => exact List.filter_sublist _
  | some gid =>
    by_cases hg : (s.groups.lookup gid).isSome
    · simp only [hg, if_true]
      exact List.filter_sublist _
    · simp only [hg, if_false, Bool.false_eq_true]
      exact List.filter_sublist _

theorem dupNewNodes_getElem? (opts : DupOptions) (s : WorkflowState) (src : List Node)
    (i : Nat) :
    (dupNewNodes opts s src)[i]? = src[i]?.map (fun nd =>
      ({ id := s.nextId + i, type := nd.type,
         position := ⟨nd.position.x + (dupShift opts s src).x,
                      nd.position.y + (dupShift opts s src).y⟩,
         data := nd.data, selected := true,
         groupId :=
           match nd.groupId with
           | some og => (dupGidMap s src).lookup og
           | none => none } : Node)) := by
  unfold dupNewNodes
  rw [mapIdxFrom_getElem?]
  simp

theorem dupNewEdges_getElem? (s : WorkflowState) (src : List Node) (i : Nat) :
    (dupNewEdges s src)[i]? = (internalEdgesOf s src)[i]?.map (fun e =>
      ({ id := s.nextId + src.length + i,
         source := dupMapId s.nextId src e.source,
         sourceHandle := e.sourceHandle,
         target := dupMapId s.nextId src e.target,
         targetHandle := e.targetHandle } : Edge)) := by
  unfold dupNewEdges
  rw [mapIdxFrom_getElem?]
  simp

theorem dupNewGroups_getElem? (opts : DupOptions) (s : WorkflowState) (src : List Node)
    (i : Nat) :
    (dupNewGroups opts s src)[i]? = (wholeGroupsOf s src)[i]?.map (fun ge =>
      ((s.nextId + src.length + (internalEdgesOf s src).length + i,
        { name := ge.2.name ++ " Copy",
          position := ⟨ge.2.position.x + (dupGroupShift opts s src ge.2).x,
                       ge.2.position.y + (dupGroupShift opts s src ge.2).y⟩,
          size := ge.2.size }) : Nat × NodeGroup)) := by
  unfold dupNewGroups
  rw [mapIdxFrom_getElem?]
  simp

theorem dupMapId_of_src (s : WorkflowState) (src : List Node)
    (hnd : (src.map Node.id).Nodup) (x : Nat) (sn : Node) (i : Nat)
    (hi : src[i]? = some sn) (hid : sn.id = x) :
    dupMapId s.nextId src x = s.nextId + i := by
  unfold dupMapId dupIdMap
  rw [← hid, dupIdMap_lookup src s.nextId 0 i sn hnd hi]
  simp

theorem dup_new_edge_endpoint_exists (opts : DupOptions) (s : WorkflowState)
    (hnd : (s.nodes.map Node.id).Nodup) (x : Nat)
    (hx : (sourceSet opts s).any (fun sn => sn.id == x) = true) :
    ∃ n' ∈ dupNewNodes opts s (sourceSet opts s), n'.id = dupMapId s.nextId (sourceSet opts s) x := by
  have hsnd : ((sourceSet opts s).map Node.id).Nodup :=
    hnd.sublist ((sourceSet_sublist opts s).map Node.id)
  rw [List.any_eq_true] at hx
  obtain ⟨sn, hsn, hsnx⟩ := hx
  obtain ⟨i, hi⟩ := List.mem_iff_getElem?.mp hsn
  have hmap := dupMapId_of_src s (sourceSet opts s) hsnd x sn i hi (by simpa using hsnx)
  have hni : (dupNewNodes opts s (sourceSet opts s))[i]?.isSome := by
    rw [dupNewNodes_getElem?, hi]
    rfl
  obtain ⟨n', hn'⟩ := Option.isSome_iff_exists.mp hni
  refine ⟨n', List.getElem?_mem hn', ?_⟩
  rw [dupNewNodes_getElem?, hi] at hn'
  simp only [Option.map_some', Option.some.injEq] at hn'
  rw [hmap, ← hn']

theorem noDangling_duplicate (opts : DupOptions) (s : WorkflowState)
    (hnd : (s.nodes.map Node.id).Nodup) (h : NoDangling s.nodes s.edges) :
    NoDangling (duplicateSelectedNodes opts s).nodes (duplicateSelectedNodes opts s).edges := by
  unfold duplicateSelectedNodes
  by_cases hsrc : sourceSet opts s = []
  · simp only [hsrc, if_pos]
    simpa using h
  · simp only [if_neg hsrc]
    intro e he
    rcases List.mem_append.mp he with hold | hnew
    · obtain ⟨⟨n1, hn1, hid1⟩, ⟨n2, hn2, hid2⟩⟩ := h e hold
      refine ⟨⟨{ n1 with selected := false }, ?_, hid1⟩,
              ⟨{ n2 with selected := false }, ?_, hid2⟩⟩
      · exact List.mem_append.mpr (Or.inl (List.mem_map.mpr ⟨n1, hn1, rfl⟩))
      · exact List.mem_append.mpr (Or.inl (List.mem_map.mpr ⟨n2, hn2, rfl⟩))
    · obtain ⟨j, e0, hj, he0⟩ := mem_mapIdxFrom _ _ _ _ hnew
      have he0mem : e0 ∈ internalEdgesOf s (sourceSet opts s) := List.getElem?_mem hj
      have hint := (List.mem_filter.mp he0mem).2
      rw [Bool.and_eq_true] at hint
      obtain ⟨ns, hnsmem, hnsid⟩ :=
        dup_new_edge_endpoint_exists opts s hnd e0.source hint.1
      obtain ⟨nt, hntmem, hntid⟩ :=
        dup_new_edge_endpoint_exists opts s hnd e0.target hint.2
      subst he0
      refine ⟨⟨ns, List.mem_append.mpr (Or.inr hnsmem), by simpa using hnsid⟩,
              ⟨nt, List.mem_append.mpr (Or.inr hntmem), by simpa using hntid⟩⟩

theorem stacks_allOK_after_push (s : WorkflowState) (h : AllOK s) (s' : WorkflowState)
    (hn : NoDangling s'.nodes s'.edges)
    (hu : s'.undoHistory = s.undoHistory ++ [obsOf s])
    (hr : s'.redoHistory = []) : AllOK s' := by
  refine ⟨hn, ?_, ?_⟩
  · rw [hu]
    intro sn hsn
    rcases List.mem_append.mp hsn with hm | hm
    · exact h.2.1 sn hm
    · rcases List.mem_singleton.mp hm with rfl
      exact h.1
  · rw [hr]
    intro sn hsn
    simp at hsn

theorem noDangling_deleteGroup (s : WorkflowState) (gid : Nat)
    (h : NoDangling s.nodes s.edges) :
    NoDangling (s.nodes.filter (fun n => n.groupId != some gid))
      (s.edges.filter (fun e =>
        !(((s.nodes.filter (fun n => n.groupId == some gid)).map Node.id).contains e.source) &&
        !(((s.nodes.filter (fun n => n.groupId == some gid)).map Node.id).contains e.target))) := by
  intro e he
  obtain ⟨hee, hcond⟩ := List.mem_filter.mp he
  rw [Bool.and_eq_true, Bool.not_eq_true', Bool.not_eq_true'] at hcond
  obtain ⟨⟨n1, hn1, hid1⟩, ⟨n2, hn2, hid2⟩⟩ := h e hee
  refine ⟨⟨n1, List.mem_filter.mpr ⟨hn1, ?_⟩, hid1⟩, ⟨n2, List.mem_filter.mpr ⟨hn2, ?_⟩, hid2⟩⟩
  · rw [bne_iff_ne]
    intro hg
    have hmem : e.source ∈ (s.nodes.filter (fun n => n.groupId == some gid)).map Node.id := by
      rw [← hid1]
      exact List.mem_map.mpr ⟨n1, List.mem_filter.mpr ⟨hn1, by simp [hg]⟩, rfl⟩
    have hc : ((s.nodes.filter (fun n => n.groupId == some gid)).map Node.id).contains e.source
        = true := by simp [hmem]
    rw [hc] at hcond
    exact absurd hcond.1 (by simp)
  · rw [bne_iff_ne]
    intro hg
    have hmem : e.target ∈ (s.nodes.filter (fun n => n.groupId == some gid)).map Node.id := by
      rw [← hid2]
      exact List.mem_map.mpr ⟨n2, List.mem_filter.mpr ⟨hn2, by simp [hg]⟩, rfl⟩
    have hc : ((s.nodes.filter (fun n => n.groupId == some gid)).map Node.id).contains e.target
        = true := by simp [hmem]
    rw [hc] at hcond
    exact absurd hcond.2 (by simp)

theorem applyMutation_allOK (m : Mutation) (s : WorkflowState) (hwf : WF s) (h : AllOK s) :
    AllOK (applyMutation m s) := by
  cases m with
  | addNodeM ty p =>
    refine stacks_allOK_after_push s h _ ?_ rfl rfl
    intro e he
    obtain ⟨⟨n1, hn1, hid1⟩, ⟨n2, hn2, hid2⟩⟩ := h.1 e he
    exact ⟨⟨n1, List.mem_append.mpr (Or.inl hn1), hid1⟩,
           ⟨n2, List.mem_append.mpr (Or.inl hn2), hid2⟩⟩
  | removeNodeM id =>
    by_cases hc : s.nodes.any (fun n => n.id == id) = true
    · have he : applyMutation (Mutation.removeNodeM id) s
          = { pushHistorySnapshot s with
              nodes := s.nodes.filter (fun n => n.id != id),
              edges := s.edges.filter (fun e => e.source != id && e.target != id) } := by
        simp [applyMutation, removeNode, hc, pushHistorySnapshot]
      rw [he]
      exact stacks_allOK_after_push s h _ (noDangling_remove _ _ _ h.1) rfl rfl
    · have he : applyMutation (Mutation.removeNodeM id) s = s := by
        simp only [Bool.not_eq_true] at hc
        simp [applyMutation, removeNode, hc]
      rw [he]
      exact h
  | updateNodeDataM id patch =>
    show AllOK (updateNodeData id patch s)
    unfold updateNodeData
    rcases hf : s.nodes.find? (fun nd => nd.id == id) with _ | n
    · rw [hf]
      exact h
    · rw [hf]
      have hid : ∀ nd : Node, ((fun m =>
          if m.id = id then { m with data := mergeData m.data patch } else m) nd).id = nd.id := by
        intro nd
        by_cases hn : nd.id = id <;> simp [hn]
      by_cases hex : exemptUpdate n patch = true
      · simp only [hex, if_true]
        exact ⟨noDangling_map_id _ _ _ hid h.1, h.2.1, h.2.2⟩
      · simp only [Bool.not_eq_true] at hex
        simp only [hex, Bool.false_eq_true, if_false]
        refine stacks_allOK_after_push s h _ ?_ rfl rfl
        exact noDangling_map_id _ _ _ hid h.1
  | connectM req =>
    by_cases hc : (s.nodes.any (fun n => n.id == req.source) &&
        s.nodes.any (fun n => n.id == req.target)) = true
    · have he : applyMutation (Mutation.connectM req) s
          = { pushHistorySnapshot s with
              edges := s.edges ++ [⟨s.nextId, req.source, req.sourceHandle,
                                   req.target, req.targetHandle⟩],
              nextId := s.nextId + 1 } := by
        simp only [applyMutation]
        unfold onConnect
        rw [if_pos hc]
        rfl
      rw [Bool.and_eq_true, List.any_eq_true, List.any_eq_true] at hc
      obtain ⟨⟨ns, hns, hnsid⟩, ⟨nt, hnt, hntid⟩⟩ := hc
      rw [he]
      refine stacks_allOK_after_push s h _ ?_ rfl rfl
      intro e he'
      rcases List.mem_append.mp he' with hold | hnew
      · exact h.1 e hold
      · rcases List.mem_singleton.mp hnew with rfl
        exact ⟨⟨ns, hns, by simpa using hnsid⟩, ⟨nt, hnt, by simpa using hntid⟩⟩
    · have he : applyMutation (Mutation.connectM req) s = s := by
        simp only [applyMutation]
        unfold onConnect
        rw [if_neg (by simpa using hc)]
      rw [he]
      exact h
  | createGroupM ids =>
    show AllOK (createGroup ids s).2
    unfold createGroup
    rcases hf : s.nodes.filter (fun n => ids.contains n.id) with _ | ⟨m, ms⟩
    · rw [hf]
      exact h
    · rw [hf]
      refine stacks_allOK_after_push s h _ ?_ rfl rfl
      have hid : ∀ nd : Node, ((fun n =>
          if ids.contains n.id then { n with groupId := some s.nextId } else n) nd).id
            = nd.id := by
        intro nd
        by_cases hn : nd.id ∈ ids <;> simp [hn]
      exact noDangling_map_id _ _ _ hid h.1
  | deleteGroupM gid =>
    show AllOK (deleteGroupWithNodes gid s)
    unfold deleteGroupWithNodes
    rcases hg : s.groups.lookup gid with _ | g
    · exact h
    · refine stacks_allOK_after_push s h _ ?_ rfl rfl
      exact noDangling_deleteGroup s gid h.1
  | duplicateM opts =>
    show AllOK (duplicateSelectedNodes opts s)
    have hlive := noDangling_duplicate opts s hwf.1 h.1
    by_cases hsrc : sourceSet opts s = []
    · have he : duplicateSelectedNodes opts s = s := by
        simp [duplicateSelectedNodes, hsrc]
      rw [he]
      exact h
    · refine stacks_allOK_after_push s h _ hlive ?_ ?_
      · simp [duplicateSelectedNodes, hsrc, pushHistorySnapshot]
      · simp [duplicateSelectedNodes, hsrc, pushHistorySnapshot]
  | batchM ncs ecs =>
    exact onEdgesChange_allOK ecs _
      (onNodesChange_allOK ncs _ (pushHistorySnapshot_allOK s h))

theorem applyOp_allOK (o : PublicOp) (s : WorkflowState) (hwf : WF s) (h : AllOK s) :
    AllOK (applyOp o s) := by
  cases o with
  | mutOp m => exact applyMutation_allOK m s hwf h
  | undoOp => exact undo_allOK s h
  | redoOp => exact redo_allOK s h
  | setSelOp v => exact ⟨h.1, h.2.1, h.2.2⟩
  | clearWorkflowOp =>
    refine ⟨?_, h.2.1, h.2.2⟩
    intro e he
    simp [applyOp, clearWorkflow] at he
  | clearHistoryOp =>
    refine ⟨h.1, ?_, ?_⟩ <;> intro sn hsn <;> simp [applyOp, clearUndoRedoHistory] at hsn
  | nodesChangeOp cs => exact onNodesChange_allOK cs s h
  | edgesChangeOp cs => exact onEdgesChange_allOK cs s h
  | pushOp => exact pushHistorySnapshot_allOK s h

/-- C2: deleting a node, via `removeNode` on a present id or via an
adapter-issued `remove` change, leaves no edge whose source or target is
that node's id; and every public operation preserves referential
integrity of the live content and of every stacked snapshot, so no
dangling edge is ever observable at a public state transition. -/
theorem node_delete_cascades_edges (s : WorkflowState) (id : Nat) (o : PublicOp)
    (hex : s.nodes.any (fun n => n.id == id) = true) :
    (∀ e ∈ (removeNode id s).edges, e.source ≠ id ∧ e.target ≠ id) ∧
    (∀ e ∈ (onNodesChange [NodeChange.removeN id] s).edges,
      e.source ≠ id ∧ e.target ≠ id) ∧
    (WF s → AllOK s → AllOK (applyOp o s)) := by
  refine ⟨?_, ?_, fun hwf hok => applyOp_allOK o s hwf hok⟩
  · intro e he
    simp only [removeNode, hex, if_true] at he
    have hc := (List.mem_filter.mp he).2
    rw [Bool.and_eq_true, bne_iff_ne, bne_iff_ne] at hc
    exact hc
  · intro e he
    have he' : e ∈ (applyNodeChange s (NodeChange.removeN id)).edges := he
    simp only [applyNodeChange] at he'
    have hc := (List.mem_filter.mp he').2
    rw [Bool.and_eq_true, bne_iff_ne, bne_iff_ne] at hc
    exact hc

/-- C2 witness: the cascade and the integrity preservation at the concrete
connected scenario. -/
theorem node_delete_cascades_edges_witness :
    (∀ e ∈ (removeNode 0 wsConn).edges, e.source ≠ 0 ∧ e.target ≠ 0) ∧
    (∀ e ∈ (onNodesChange [NodeChange.removeN 0] wsConn).edges,
      e.source ≠ 0 ∧ e.target ≠ 0) ∧
    AllOK (applyOp (PublicOp.mutOp (Mutation.removeNodeM 0)) wsConn) := by
  obtain ⟨h1, h2, h3⟩ := node_delete_cascades_edges wsConn 0
    (PublicOp.mutOp (Mutation.removeNodeM 0)) (by decide)
  exact ⟨h1, h2, h3 (by decide) (by decide)⟩

/-- C9: `getPresetBezier` is total — a preset name that is a key of
`PRESET_BEZIERS` yields that preset's four control values, every other
input (unknown string, null/undefined modelled as `none`, or the empty
string, which JS truthiness short-circuits) yields the default custom
bezier, and the result always has exactly four entries.  The source
returns `[...source]`, a fresh array per call; in this pure value model
freshness is expressed by the result being equal, as a value, to the
table entry or default. -/
theorem getPresetBezier_total (p : String) (bs : List ℚ) :
    (PRESET_BEZIERS.lookup p = some bs → getPresetBezier (some p) = bs) ∧
    (PRESET_BEZIERS.lookup p = none → getPresetBezier (some p) = DEFAULT_CUSTOM_BEZIER) ∧
    getPresetBezier none = DEFAULT_CUSTOM_BEZIER ∧
    getPresetBezier (some "") = DEFAULT_CUSTOM_BEZIER ∧
    (getPresetBezier (some p)).length = 4 ∧
    (getPresetBezier none).length = 4 := by
  refine ⟨?_, ?_, rfl, rfl, ?_, rfl⟩
  · intro h
    have hne : p ≠ "" := by
      intro he
      rw [he] at h
      have h0 : PRESET_BEZIERS.lookup "" = none := by decide
      rw [h0] at h
      cases h
    simp [getPresetBezier, hne, h]
  · intro h
    by_cases hne : p = ""
    · rw [hne]
      rfl
    · simp [getPresetBezier, hne, h]
  · by_cases hne : p = ""
    · rw [hne]
      rfl
    · rcases hl : PRESET_BEZIERS.lookup p with _ | bs'
      · simp [getPresetBezier, hne, hl, DEFAULT_CUSTOM_BEZIER]
      · have hmem := lookup_mem PRESET_BEZIERS p bs' hl
        simp only [getPresetBezier, hne, if_false, hl]
        have : bs'.length = 4 := by
          simp [PRESET_BEZIERS] at hmem
          rcases hmem with ⟨_, h⟩ | ⟨_, h⟩ | ⟨_, h⟩ | ⟨_, h⟩ | ⟨_, h⟩ <;> rw [h] <;> rfl
        simpa using this

/-- C9 witness: a table hit returns that preset's values and an unknown
name returns the default. -/
theorem getPresetBezier_total_witness :
    getPresetBezier (some "easeInOutExpo") = [1, 0, 0, 1] ∧
    getPresetBezier (some "unknown") = DEFAULT_CUSTOM_BEZIER :=
  ⟨(getPresetBezier_total "easeInOutExpo" [1, 0, 0, 1]).1 (by decide),
   (getPresetBezier_total "unknown" []).2.1 (by decide)⟩

/-- C10: every control-point pair computed from a pointer position is
clamped into `[0,1]` on both axes before being stored or handed to
`onChange`, and only the dragged handle's two components change — the
other handle's components are carried over unchanged. -/
theorem updateHandleFromClient_clamped (handle : Handle) (clientX clientY : ℚ)
    (rect : DomRect) (current : BezierValue) :
    (handle = Handle.p1 →
      0 ≤ (updateHandleFromClient handle clientX clientY rect current).x1 ∧
      (updateHandleFromClient handle clientX clientY rect current).x1 ≤ 1 ∧
      0 ≤ (updateHandleFromClient handle clientX clientY rect current).y1 ∧
      (updateHandleFromClient handle clientX clientY rect current).y1 ≤ 1 ∧
      (updateHandleFromClient handle clientX clientY rect current).x2 = current.x2 ∧
      (updateHandleFromClient handle clientX clientY rect current).y2 = current.y2) ∧
    (handle = Handle.p2 →
      0 ≤ (updateHandleFromClient handle clientX clientY rect current).x2 ∧
      (updateHandleFromClient handle clientX clientY rect current).x2 ≤ 1 ∧
      0 ≤ (updateHandleFromClient handle clientX clientY rect current).y2 ∧
      (updateHandleFromClient handle clientX clientY rect current).y2 ≤ 1 ∧
      (updateHandleFromClient handle clientX clientY rect current).x1 = current.x1 ∧
      (updateHandleFromClient handle clientX clientY rect current).y1 = current.y1) := by
  have hlow : ∀ v : ℚ, 0 ≤ clamp v := fun v => le_max_left 0 _
  have hhigh : ∀ v : ℚ, clamp v ≤ 1 :=
    fun v => max_le (by norm_num) (min_le_left 1 v)
  constructor
  · rintro rfl
    exact ⟨hlow _, hhigh _, hlow _, hhigh _, rfl, rfl⟩
  · rintro rfl
    exact ⟨hlow _, hhigh _, hlow _, hhigh _, rfl, rfl⟩

/-- C10 witness: the clamped update at a concrete pointer position outside
the container. -/
theorem updateHandleFromClient_clamped_witness :
    0 ≤ (updateHandleFromClient Handle.p1 500 (-40) ⟨10, 10, 260, 260⟩ ⟨0, 0, 1, 1⟩).x1 ∧
    (updateHandleFromClient Handle.p1 500 (-40) ⟨10, 10, 260, 260⟩ ⟨0, 0, 1, 1⟩).x1 ≤ 1 ∧
    0 ≤ (updateHandleFromClient Handle.p1 500 (-40) ⟨10, 10, 260, 260⟩ ⟨0, 0, 1, 1⟩).y1 ∧
    (updateHandleFromClient Handle.p1 500 (-40) ⟨10, 10, 260, 260⟩ ⟨0, 0, 1, 1⟩).y1 ≤ 1 ∧
    (updateHandleFromClient Handle.p1 500 (-40) ⟨10, 10, 260, 260⟩ ⟨0, 0, 1, 1⟩).x2 = 1 ∧
    (updateHandleFromClient Handle.p1 500 (-40) ⟨10, 10, 260, 260⟩ ⟨0, 0, 1, 1⟩).y2 = 1 :=
  (updateHandleFromClient_clamped Handle.p1 500 (-40) ⟨10, 10, 260, 260⟩ ⟨0, 0, 1, 1⟩).1 rfl

/-! Facts about the duplication engine. -/

theorem map_mapIdxFrom {α β γ : Type} (f : Nat → α → β) (g : β → γ) (h : α → γ)
    (hc : ∀ j a, g (f j a) = h a) :
    ∀ (i : Nat) (l : List α), (mapIdxFrom f i l).map g = l.map h := by
  intro i l
  induction l generalizing i with
  | nil => rfl
  | cons a as ih => simp [mapIdxFrom, hc, ih]

theorem filter_mapIdxFrom_true {α β : Type} (f : Nat → α → β) (p : β → Bool)
    (hp : ∀ j a, p (f j a) = true) :
    ∀ (i : Nat) (l : List α), (mapIdxFrom f i l).filter p = mapIdxFrom f i l := by
  intro i l
  induction l generalizing i with
  | nil => rfl
  | cons a as ih => simp [mapIdxFrom, List.filter_cons, hp, ih]

theorem sourceSet_of_selection (opts : DupOptions) (s : WorkflowState)
    (hgid : opts.selectedGroupId = none) (hsel : s.selectedGroupId = none) :
    sourceSet opts s = s.nodes.filter (fun n => n.selected) := by
  unfold sourceSet dupSourceGid
  rw [hgid, hsel]

theorem duplicate_nodes_eq (opts : DupOptions) (s : WorkflowState)
    (h : sourceSet opts s ≠ []) :
    (duplicateSelectedNodes opts s).nodes
      = s.nodes.map (fun nd => { nd with selected := false })
          ++ dupNewNodes opts s (sourceSet opts s) := by
  unfold duplicateSelectedNodes
  rw [if_neg h]
  rfl

theorem duplicate_edges_eq (opts : DupOptions) (s : WorkflowState)
    (h : sourceSet opts s ≠ []) :
    (duplicateSelectedNodes opts s).edges
      = s.edges ++ dupNewEdges s (sourceSet opts s) := by
  unfold duplicateSelectedNodes
  rw [if_neg h]
  rfl

theorem duplicate_groups_eq (opts : DupOptions) (s : WorkflowState)
    (h : sourceSet opts s ≠ []) :
    (duplicateSelectedNodes opts s).groups
      = s.groups ++ dupNewGroups opts s (sourceSet opts s) := by
  unfold duplicateSelectedNodes
  rw [if_neg h]
  rfl

theorem internalEdgesOf_nil (s : WorkflowState) : internalEdgesOf s [] = [] := by
  simp [internalEdgesOf]

/-- C6: duplicating a node selection (no group targeted) produces exactly
N new nodes and M new edges, where N counts the selected nodes and M the
edges with both endpoints selected; each clone preserves its source's
data; the new nodes are exactly the selected nodes afterwards (the
previous selection is cleared); and the j-th cloned edge corresponds to
the j-th internal edge with the same handles and with source and target
rewritten to the fresh ids of the cloned endpoint nodes.  Edges with only
one endpoint in the selection are not cloned: the edge count accounts for
every added edge. -/
theorem duplicate_selection_clones (s : WorkflowState) (opts : DupOptions)
    (hwf : WF s) (hgid : opts.selectedGroupId = none) (hsel : s.selectedGroupId = none) :
    (duplicateSelectedNodes opts s).nodes.length
        = s.nodes.length + (s.nodes.filter (fun n => n.selected)).length ∧
    (duplicateSelectedNodes opts s).edges.length
        = s.edges.length
            + (internalEdgesOf s (s.nodes.filter (fun n => n.selected))).length ∧
    ((duplicateSelectedNodes opts s).nodes.drop s.nodes.length).map Node.data
        = (s.nodes.filter (fun n => n.selected)).map Node.data ∧
    (duplicateSelectedNodes opts s).nodes.filter (fun n => n.selected)
        = (duplicateSelectedNodes opts s).nodes.drop s.nodes.length ∧
    (∀ (j : Nat) (e₀ : Edge),
      (internalEdgesOf s (s.nodes.filter (fun n => n.selected)))[j]? = some e₀ →
      ∃ e₁, ((duplicateSelectedNodes opts s).edges.drop s.edges.length)[j]? = some e₁ ∧
        e₁.sourceHandle = e₀.sourceHandle ∧ e₁.targetHandle = e₀.targetHandle ∧
        (∃ i nd, (s.nodes.filter (fun n => n.selected))[i]? = some nd ∧
          nd.id = e₀.source ∧ e₁.source = s.nextId + i) ∧
        (∃ i nd, (s.nodes.filter (fun n => n.selected))[i]? = some nd ∧
          nd.id = e₀.target ∧ e₁.target = s.nextId + i)) := by
  have hs := sourceSet_of_selection opts s hgid hsel
  by_cases hne : sourceSet opts s = []
  · have hF : s.nodes.filter (fun n => n.selected) = [] := by rw [← hs]; exact hne
    have hd : duplicateSelectedNodes opts s = s := by
      unfold duplicateSelectedNodes
      rw [if_pos hne]
    rw [hd, hF, internalEdgesOf_nil]
    refine ⟨by simp, by simp, by simp [List.drop_length], by simp [hF, List.drop_length], ?_⟩
    intro j e₀ hj
    simp at hj
  · have hFnd : ((s.nodes.filter (fun n => n.selected)).map Node.id).Nodup :=
      hwf.1.sublist ((List.filter_sublist s.nodes).map Node.id)
    have hnodes := duplicate_nodes_eq opts s hne
    have hedges := duplicate_edges_eq opts s hne
    rw [hs] at hnodes hedges
    refine ⟨?_, ?_, ?_, ?_, ?_⟩
    · rw [hnodes]
      simp [dupNewNodes, mapIdxFrom_length]
    · rw [hedges]
      simp [dupNewEdges, mapIdxFrom_length]
    · rw [hnodes, List.drop_left' (by simp)]
      unfold dupNewNodes
      apply map_mapIdxFrom
      intro j a
      rfl
    · rw [hnodes, List.filter_append, List.drop_left' (by simp)]
      have h1 : (s.nodes.map (fun nd => { nd with selected := false })).filter
          (fun n => n.selected) = [] := by
        rw [List.filter_eq_nil_iff]
        intro a ha
        obtain ⟨b, _, rfl⟩ := List.mem_map.mp ha
        simp
      rw [h1]
      unfold dupNewNodes
      rw [filter_mapIdxFrom_true _ _ (fun j a => rfl)]
      simp
    · intro j e₀ hj
      rw [hedges, List.drop_left, dupNewEdges_getElem?, hj]
      refine ⟨_, rfl, rfl, rfl, ?_, ?_⟩
      · have hmem : e₀ ∈ internalEdgesOf s (s.nodes.filter (fun n => n.selected)) :=
          List.getElem?_mem hj
        have hint := (List.mem_filter.mp hmem).2
        simp only [Bool.and_eq_true, List.any_eq_true] at hint
        obtain ⟨sn, hsn, hsnid⟩ := hint.1
        obtain ⟨i, hi⟩ := List.mem_iff_getElem?.mp hsn
        refine ⟨i, sn, hi, by simpa using hsnid, ?_⟩
        exact dupMapId_of_src s _ hFnd e₀.source sn i hi (by simpa using hsnid)
      · have hmem : e₀ ∈ internalEdgesOf s (s.nodes.filter (fun n => n.selected)) :=
          List.getElem?_mem hj
        have hint := (List.mem_filter.mp hmem).2
        simp only [Bool.and_eq_true, List.any_eq_true] at hint
        obtain ⟨sn, hsn, hsnid⟩ := hint.2
        obtain ⟨i, hi⟩ := List.mem_iff_getElem?.mp hsn
        refine ⟨i, sn, hi, by simpa using hsnid, ?_⟩
        exact dupMapId_of_src s _ hFnd e₀.target sn i hi (by simpa using hsnid)

/-- C6 witness: the clone law at the concrete two-node selection with one
internal wire. -/
theorem duplicate_selection_clones_witness :
    (duplicateSelectedNodes ⟨none, none⟩ wsSelBase).nodes.length
        = wsSelBase.nodes.length + (wsSelBase.nodes.filter (fun n => n.selected)).length ∧
    (duplicateSelectedNodes ⟨none, none⟩ wsSelBase).edges.length
        = wsSelBase.edges.length
            + (internalEdgesOf wsSelBase (wsSelBase.nodes.filter (fun n => n.selected))).length ∧
    ((duplicateSelectedNodes ⟨none, none⟩ wsSelBase).nodes.drop wsSelBase.nodes.length).map
        Node.data
        = (wsSelBase.nodes.filter (fun n => n.selected)).map Node.data ∧
    (duplicateSelectedNodes ⟨none, none⟩ wsSelBase).nodes.filter (fun n => n.selected)
        = (duplicateSelectedNodes ⟨none, none⟩ wsSelBase).nodes.drop wsSelBase.nodes.length ∧
    (∀ (j : Nat) (e₀ : Edge),
      (internalEdgesOf wsSelBase (wsSelBase.nodes.filter (fun n => n.selected)))[j]?
          = some e₀ →
      ∃ e₁, ((duplicateSelectedNodes ⟨none, none⟩ wsSelBase).edges.drop
          wsSelBase.edges.length)[j]? = some e₁ ∧
        e₁.sourceHandle = e₀.sourceHandle ∧ e₁.targetHandle = e₀.targetHandle ∧
        (∃ i nd, (wsSelBase.nodes.filter (fun n => n.selected))[i]? = some nd ∧
          nd.id = e₀.source ∧ e₁.source = wsSelBase.nextId + i) ∧
        (∃ i nd, (wsSelBase.nodes.filter (fun n => n.selected))[i]? = some nd ∧
          nd.id = e₀.target ∧ e₁.target = wsSelBase.nextId + i)) :=
  duplicate_selection_clones wsSelBase ⟨none, none⟩ (by decide) rfl (by decide)

theorem filter_mapIdxFrom_of_mem {α β : Type} (f : Nat → α → β) (p : β → Bool) :
    ∀ (i : Nat) (l : List α), (∀ j a, a ∈ l → p (f j a) = true) →
      (mapIdxFrom f i l).filter p = mapIdxFrom f i l := by
  intro i l
  induction l generalizing i with
  | nil => intro _; rfl
  | cons a as ih =>
    intro hp
    simp only [mapIdxFrom, List.filter_cons, hp i a (List.mem_cons_self a as), if_true]
    rw [ih (i + 1) (fun j b hb => hp j b (List.mem_cons_of_mem a hb))]

theorem sourceSet_of_group (opts : DupOptions) (s : WorkflowState) (gid : Nat)
    (h : opts.selectedGroupId = some gid) (hg : (s.groups.lookup gid).isSome = true) :
    sourceSet opts s = groupMembers s gid := by
  unfold sourceSet dupSourceGid
  rw [h]
  simp [hg]

theorem rectsOverlap_shift_false (r : Rect) (d : Int) (hd : r.w ≤ d) :
    rectsOverlap r (shiftRect r ⟨d, 0⟩) = false := by
  simp only [rectsOverlap, shiftRect]
  have hlt : ¬(r.x + d < r.x + r.w) := by omega
  simp [hlt]

theorem width_le_dupDispX (s : WorkflowState) (src : List Node) (gid : Nat) (g : NodeGroup)
    (hmem : (gid, g) ∈ wholeGroupsOf s src) :
    g.size.width ≤ dupDispX s src := by
  have hr : groupRect g ∈ dupRects s src :=
    List.mem_append.mpr (Or.inr (List.mem_map.mpr ⟨(gid, g), hmem, rfl⟩))
  have h1 : rectsMinX (dupRects s src) 0 ≤ (groupRect g).x :=
    foldl_min_le (fun r => r.x) (dupRects s src) 0 (groupRect g) hr
  have h2 : (groupRect g).x + (groupRect g).w ≤ rectsMaxX (dupRects s src) 0 :=
    le_foldl_max (fun r => r.x + r.w) (dupRects s src) 0 (groupRect g) hr
  have hw : (groupRect g).w = g.size.width := rfl
  rw [hw] at h2
  unfold dupDispX dupMargin
  omega

theorem dupGroupShift_no_overlap (opts : DupOptions) (s : WorkflowState) (src : List Node)
    (gid : Nat) (g : NodeGroup) (hmem : (gid, g) ∈ wholeGroupsOf s src) :
    rectsOverlap (groupRect g) (shiftRect (groupRect g) (dupGroupShift opts s src g))
      = false := by
  have hd : (groupRect g).w ≤ dupDispX s src := width_le_dupDispX s src gid g hmem
  unfold dupGroupShift
  cases hoff : opts.offset with
  | none => exact rectsOverlap_shift_false _ _ hd
  | some off =>
    by_cases hov : rectsOverlap (groupRect g) (shiftRect (groupRect g) off) = true
    · simp only [hov, if_true]
      exact rectsOverlap_shift_false _ _ hd
    · rw [Bool.not_eq_true] at hov
      simp only [hov, Bool.false_eq_true, if_false]

theorem wholeGroupsOf_singleton (s : WorkflowState) (gid : Nat) (g : NodeGroup)
    (hwf : WF s) (hg : s.groups.lookup gid = some g) (hne : groupMembers s gid ≠ []) :
    wholeGroupsOf s (groupMembers s gid) = [(gid, g)] := by
  have hmem : (gid, g) ∈ s.groups := lookup_mem s.groups gid g hg
  apply filter_eq_singleton _ s.groups (hwf.2.1.of_map) (gid, g) hmem
  · rw [Bool.and_eq_true]
    constructor
    · rcases hm : groupMembers s gid with _ | ⟨x, xs⟩
      · exact absurd hm hne
      · simp [hm]
    · rw [List.all_eq_true]
      intro nd hnd
      rw [List.any_eq_true]
      exact ⟨nd, hnd, by simp⟩
  · rintro ⟨gid', g'⟩ hx hp
    rw [Bool.and_eq_true] at hp
    have hne' : groupMembers s gid' ≠ [] := by
      intro hnil
      rw [hnil] at hp
      simp at hp
    rcases hm' : groupMembers s gid' with _ | ⟨nd', nds'⟩
    · exact absurd hm' hne'
    · have hnd'mem : nd' ∈ groupMembers s gid' := by rw [hm']; exact List.mem_cons_self _ _
      have hall := hp.2
      rw [List.all_eq_true] at hall
      have hany := hall nd' hnd'mem
      rw [List.any_eq_true] at hany
      obtain ⟨sn, hsn, hsnid⟩ := hany
      have hsn_nodes : sn ∈ s.nodes := (List.mem_filter.mp hsn).1
      have hnd'_nodes : nd' ∈ s.nodes := (List.mem_filter.mp hnd'mem).1
      have heq : sn = nd' := nodup_id_inj hwf.1 hsn_nodes hnd'_nodes (by simpa using hsnid)
      have hsn_gid : sn.groupId = some gid := by
        have := (List.mem_filter.mp hsn).2
        simpa using this
      have hnd'_gid : nd'.groupId = some gid' := by
        have := (List.mem_filter.mp hnd'mem).2
        simpa using this
      have hgid : gid' = gid := by
        rw [heq] at hsn_gid
        rw [hsn_gid] at hnd'_gid
        exact (Option.some.injEq _ _ ▸ hnd'_gid).symm
      subst hgid
      have : s.groups.lookup gid' = some g' := lookup_unique s.groups hwf.2.1 hx
      rw [hg] at this
      cases this
      rfl

theorem dupGidMap_singleton (s : WorkflowState) (gid : Nat) (g : NodeGroup)
    (hwf : WF s) (hg : s.groups.lookup gid = some g) (hne : groupMembers s gid ≠ []) :
    dupGidMap s (groupMembers s gid)
      = [(gid, s.nextId + (groupMembers s gid).length
            + (internalEdgesOf s (groupMembers s gid)).length)] := by
  unfold dupGidMap
  rw [wholeGroupsOf_singleton s gid g hwf hg hne]
  rfl

/-- C5: duplicating a whole group — targeted either through the
`selectedGroupId` option or by having exactly the group's membership
selected — adds exactly one new group record; the new record has the
original's member count, the original's name with the Copy marker
appended, an id different from the original's, the original's size, and a
bounding rectangle that does not overlap the original's; and every cloned
member node (exactly the selected nodes afterwards) carries the new group
id. -/
theorem duplicate_whole_group (s : WorkflowState) (opts : DupOptions) (gid : Nat)
    (g : NodeGroup) (hwf : WF s) (hg : s.groups.lookup gid = some g)
    (hne : groupMembers s gid ≠ [])
    (hpath : opts.selectedGroupId = some gid ∨
      (opts.selectedGroupId = none ∧ s.selectedGroupId = none ∧
       s.nodes.filter (fun n => n.selected) = groupMembers s gid)) :
    (duplicateSelectedNodes opts s).groups.length = s.groups.length + 1 ∧
    (∃ g', (duplicateSelectedNodes opts s).groups.lookup
          (s.nextId + (groupMembers s gid).length
            + (internalEdgesOf s (groupMembers s gid)).length) = some g' ∧
       g'.name = g.name ++ " Copy" ∧ g'.size = g.size ∧
       rectsOverlap (groupRect g) (groupRect g') = false) ∧
    s.nextId + (groupMembers s gid).length
        + (internalEdgesOf s (groupMembers s gid)).length ≠ gid ∧
    ((duplicateSelectedNodes opts s).nodes.filter (fun nd =>
        nd.groupId == some (s.nextId + (groupMembers s gid).length
          + (internalEdgesOf s (groupMembers s gid)).length))).length
      = (groupMembers s gid).length ∧
    (∀ nd ∈ (duplicateSelectedNodes opts s).nodes, nd.selected = true →
      nd.groupId = some (s.nextId + (groupMembers s gid).length
        + (internalEdgesOf s (groupMembers s gid)).length)) := by
  have hsrc : sourceSet opts s = groupMembers s gid := by
    rcases hpath with h | ⟨h1, h2, h3⟩
    · exact sourceSet_of_group opts s gid h (by rw [hg]; rfl)
    · rw [sourceSet_of_selection opts s h1 h2, h3]
  have hsne : sourceSet opts s ≠ [] := by rw [hsrc]; exact hne
  have hwg := wholeGroupsOf_singleton s gid g hwf hg hne
  have hgm := dupGidMap_singleton s gid g hwf hg hne
  have hgrmem : (gid, g) ∈ s.groups := lookup_mem s.groups gid g hg
  have hgidlt : gid < s.nextId := hwf.2.2.2.1 (gid, g) hgrmem
  have hng : dupNewGroups opts s (groupMembers s gid)
      = [(s.nextId + (groupMembers s gid).length
            + (internalEdgesOf s (groupMembers s gid)).length,
          { name := g.name ++ " Copy",
            position := ⟨g.position.x + (dupGroupShift opts s (groupMembers s gid) g).x,
                         g.position.y + (dupGroupShift opts s (groupMembers s gid) g).y⟩,
            size := g.size })] := by
    unfold dupNewGroups
    rw [hwg]
    rfl
  have hgroups : (duplicateSelectedNodes opts s).groups
      = s.groups ++ dupNewGroups opts s (groupMembers s gid) := by
    rw [duplicate_groups_eq opts s hsne, hsrc]
  have hnodes : (duplicateSelectedNodes opts s).nodes
      = s.nodes.map (fun nd => { nd with selected := false })
          ++ dupNewNodes opts s (groupMembers s gid) := by
    rw [duplicate_nodes_eq opts s hsne, hsrc]
  have hnone : s.groups.lookup (s.nextId + (groupMembers s gid).length
      + (internalEdgesOf s (groupMembers s gid)).length) = none := by
    rw [List.lookup_eq_none_iff]
    intro p hp
    have hb := hwf.2.2.2.1 p hp
    simp only [bne_iff_ne]
    omega
  refine ⟨?_, ?_, by omega, ?_, ?_⟩
  · rw [hgroups, hng]
    simp
  · have hlook : (duplicateSelectedNodes opts s).groups.lookup
        (s.nextId + (groupMembers s gid).length
          + (internalEdgesOf s (groupMembers s gid)).length)
        = some
          { name := g.name ++ " Copy",
            position := ⟨g.position.x + (dupGroupShift opts s (groupMembers s gid) g).x,
                         g.position.y + (dupGroupShift opts s (groupMembers s gid) g).y⟩,
            size := g.size } := by
      rw [hgroups, hng, List.lookup_append, hnone]
      simp
    refine ⟨_, hlook, rfl, rfl, ?_⟩
    have hrect : groupRect
        { name := g.name ++ " Copy",
          position := ⟨g.position.x + (dupGroupShift opts s (groupMembers s gid) g).x,
                       g.position.y + (dupGroupShift opts s (groupMembers s gid) g).y⟩,
          size := g.size }
        = shiftRect (groupRect g) (dupGroupShift opts s (groupMembers s gid) g) := rfl
    rw [hrect]
    exact dupGroupShift_no_overlap opts s (groupMembers s gid) gid g
      (by rw [hwg]; exact List.mem_singleton.mpr rfl)
  · rw [hnodes, List.filter_append]
    have hold : (s.nodes.map (fun nd => { nd with selected := false })).filter
        (fun nd => nd.groupId == some (s.nextId + (groupMembers s gid).length
          + (internalEdgesOf s (groupMembers s gid)).length)) = [] := by
      rw [List.filter_eq_nil_iff]
      intro a ha
      obtain ⟨b, hb, rfl⟩ := List.mem_map.mp ha
      have hbound := hwf.2.2.2.2 b hb
      cases hbg : b.groupId with
      | none => simp [hbg]
      | some k =>
        rw [hbg] at hbound
        have hk : k < s.nextId := hbound
        intro hc
        rw [beq_iff_eq, Option.some.injEq] at hc
        omega
    rw [hold]
    have hnew : (dupNewNodes opts s (groupMembers s gid)).filter
        (fun nd => nd.groupId == some (s.nextId + (groupMembers s gid).length
          + (internalEdgesOf s (groupMembers s gid)).length))
        = dupNewNodes opts s (groupMembers s gid) := by
      unfold dupNewNodes
      apply filter_mapIdxFrom_of_mem
      intro j a ha
      have hag : a.groupId = some gid := by
        have := (List.mem_filter.mp ha).2
        simpa using this
      simp [hag, hgm]
    rw [hnew]
    unfold dupNewNodes
    simp [mapIdxFrom_length]
  · intro nd hnd hsel
    rw [hnodes] at hnd
    rcases List.mem_append.mp hnd with hold | hnew
    · obtain ⟨b, hb, rfl⟩ := List.mem_map.mp hold
      simp at hsel
    · obtain ⟨j, a, hj, rfl⟩ := mem_mapIdxFrom _ _ _ _ hnew
      have ha : a ∈ groupMembers s gid := List.getElem?_mem hj
      have hag : a.groupId = some gid := by
        have := (List.mem_filter.mp ha).2
        simpa using this
      show (match a.groupId with
        | some og => (dupGidMap s (groupMembers s gid)).lookup og
        | none => none) = _
      rw [hag, hgm]
      simp

/-- C5 witness: the whole-group duplication law at the concrete selected
group (path through the `selectedGroupId` option). -/
theorem duplicate_whole_group_witness :
    (duplicateSelectedNodes ⟨some 2, none⟩ wsDupSel).groups.length
        = wsDupSel.groups.length + 1 ∧
    (∃ g', (duplicateSelectedNodes ⟨some 2, none⟩ wsDupSel).groups.lookup
          (wsDupSel.nextId + (groupMembers wsDupSel 2).length
            + (internalEdgesOf wsDupSel (groupMembers wsDupSel 2)).length) = some g' ∧
       g'.name = (⟨"NodeGroup", ⟨0, 40⟩, ⟨600, 180⟩⟩ : NodeGroup).name ++ " Copy" ∧
       g'.size = (⟨"NodeGroup", ⟨0, 40⟩, ⟨600, 180⟩⟩ : NodeGroup).size ∧
       rectsOverlap (groupRect ⟨"NodeGroup", ⟨0, 40⟩, ⟨600, 180⟩⟩) (groupRect g') = false) ∧
    wsDupSel.nextId + (groupMembers wsDupSel 2).length
        + (internalEdgesOf wsDupSel (groupMembers wsDupSel 2)).length ≠ 2 ∧
    ((duplicateSelectedNodes ⟨some 2, none⟩ wsDupSel).nodes.filter (fun nd =>
        nd.groupId == some (wsDupSel.nextId + (groupMembers wsDupSel 2).length
          + (internalEdgesOf wsDupSel (groupMembers wsDupSel 2)).length))).length
      = (groupMembers wsDupSel 2).length ∧
    (∀ nd ∈ (duplicateSelectedNodes ⟨some 2, none⟩ wsDupSel).nodes, nd.selected = true →
      nd.groupId = some (wsDupSel.nextId + (groupMembers wsDupSel 2).length
        + (internalEdgesOf wsDupSel (groupMembers wsDupSel 2)).length)) :=
  duplicate_whole_group wsDupSel ⟨some 2, none⟩ 2 ⟨"NodeGroup", ⟨0, 40⟩, ⟨600, 180⟩⟩
    (by decide) (by decide) (by decide) (Or.inl rfl)

/-- C3 counterexample: duplicating with the explicit offset `{x:0,y:0}`
does not place the duplicated group at its source's coordinates — in the
concrete scenario of the repository's placement test the clone's position
differs from the original's — and verbatim placement would make the two
group rectangles overlap, which that very test asserts never happens. -/
theorem dup_zero_offset_counterexample :
    (wsDupZero.groups.lookup 5).map NodeGroup.position
      ≠ (wsDupZero.groups.lookup 2).map NodeGroup.position ∧
    rectsOverlap (groupRect ⟨"NodeGroup", ⟨0, 40⟩, ⟨600, 180⟩⟩)
      (groupRect ⟨"NodeGroup", ⟨0, 40⟩, ⟨600, 180⟩⟩) = true := by
  constructor
  · decide
  · decide

/-- C3 amended: an explicit offset is added verbatim to every source node
position (the j-th clone sits at the j-th source position plus the
offset, with data and type preserved); a cloned whole group receives the
offset verbatim exactly when the shifted rectangle would not overlap the
original's, and otherwise — as with `{x:0,y:0}` — the default non-overlap
displacement, so a duplicated group's rectangle never overlaps its
source's. -/
theorem dup_explicit_offset_placement (s : WorkflowState) (opts : DupOptions) (off : Pos)
    (hoff : opts.offset = some off) (hne : sourceSet opts s ≠ []) :
    (∀ (j : Nat) (nd : Node), (sourceSet opts s)[j]? = some nd →
      ∃ nd', ((duplicateSelectedNodes opts s).nodes.drop s.nodes.length)[j]? = some nd' ∧
        nd'.position = ⟨nd.position.x + off.x, nd.position.y + off.y⟩ ∧
        nd'.data = nd.data ∧ nd'.type = nd.type) ∧
    (∀ (k : Nat) (ge : Nat × NodeGroup),
      (wholeGroupsOf s (sourceSet opts s))[k]? = some ge →
      ∃ ge', ((duplicateSelectedNodes opts s).groups.drop s.groups.length)[k]? = some ge' ∧
        ge'.2.size = ge.2.size ∧ ge'.2.name = ge.2.name ++ " Copy" ∧
        rectsOverlap (groupRect ge.2) (groupRect ge'.2) = false ∧
        (rectsOverlap (groupRect ge.2) (shiftRect (groupRect ge.2) off) = false →
          ge'.2.position = ⟨ge.2.position.x + off.x, ge.2.position.y + off.y⟩)) := by
  have hsh : dupShift opts s (sourceSet opts s) = off := by
    unfold dupShift
    rw [hoff]
  constructor
  · intro j nd hj
    rw [duplicate_nodes_eq opts s hne, List.drop_left' (by simp),
      dupNewNodes_getElem?, hj]
    refine ⟨_, rfl, ?_, rfl, rfl⟩
    rw [hsh]
  · intro k ge hk
    rw [duplicate_groups_eq opts s hne, List.drop_left, dupNewGroups_getElem?, hk]
    refine ⟨_, rfl, rfl, rfl, ?_, ?_⟩
    · have hrect : (groupRect
          { name := ge.2.name ++ " Copy",
            position := ⟨ge.2.position.x + (dupGroupShift opts s (sourceSet opts s) ge.2).x,
                         ge.2.position.y + (dupGroupShift opts s (sourceSet opts s) ge.2).y⟩,
            size := ge.2.size })
          = shiftRect (groupRect ge.2) (dupGroupShift opts s (sourceSet opts s) ge.2) := rfl
      rw [hrect]
      exact dupGroupShift_no_overlap opts s (sourceSet opts s) ge.1 ge.2
        (by rw [show ((ge.1, ge.2) : Nat × NodeGroup) = ge from rfl]
            exact List.getElem?_mem hk)
    · intro hnov
      have hshg : dupGroupShift opts s (sourceSet opts s) ge.2 = off := by
        unfold dupGroupShift
        rw [hoff]
        simp only [hnov, Bool.false_eq_true, if_false]
      simp only [hshg]

/-- C3 amended witness: the verbatim node placement and the displaced
group placement at the concrete zero-offset duplication. -/
theorem dup_explicit_offset_placement_witness :
    (∀ (j : Nat) (nd : Node), (sourceSet ⟨some 2, some ⟨0, 0⟩⟩ wsDupSel)[j]? = some nd →
      ∃ nd', ((duplicateSelectedNodes ⟨some 2, some ⟨0, 0⟩⟩ wsDupSel).nodes.drop
          wsDupSel.nodes.length)[j]? = some nd' ∧
        nd'.position = ⟨nd.position.x + (0 : Int), nd.position.y + (0 : Int)⟩ ∧
        nd'.data = nd.data ∧ nd'.type = nd.type) ∧
    (∀ (k : Nat) (ge : Nat × NodeGroup),
      (wholeGroupsOf wsDupSel (sourceSet ⟨some 2, some ⟨0, 0⟩⟩ wsDupSel))[k]? = some ge →
      ∃ ge', ((duplicateSelectedNodes ⟨some 2, some ⟨0, 0⟩⟩ wsDupSel).groups.drop
          wsDupSel.groups.length)[k]? = some ge' ∧
        ge'.2.size = ge.2.size ∧ ge'.2.name = ge.2.name ++ " Copy" ∧
        rectsOverlap (groupRect ge.2) (groupRect ge'.2) = false ∧
        (rectsOverlap (groupRect ge.2) (shiftRect (groupRect ge.2) ⟨0, 0⟩) = false →
          ge'.2.position = ⟨ge.2.position.x + (0 : Int), ge.2.position.y + (0 : Int)⟩)) :=
  dup_explicit_offset_placement wsDupSel ⟨some 2, some ⟨0, 0⟩⟩ ⟨0, 0⟩ rfl (by decide)
